import Mathlib

/-!
# darwin-rebuild-rs — verification of the flake-reference resolver and
privilege-aware action orchestrator

Shallow embedding of the Rust sources:
* `src/nix_commands.rs` — external command adapters (build, profile, activation);
* `src/runner/nix_darwin_runner.rs`, `src/runner/runnable.rs`,
  `src/runner/nix_darwin_action.rs` — the `NixDarwinRunner` variant;
* `src/build_runner.rs` — the `BuildRunner` variant;
* `src/main.rs`, `src/cli.rs` — the inline variant.

External effects (child processes, the filesystem, environment variables) are
modelled by a `World` record of oracle fields; every embedded function returns
its `Except`-style result together with the list of externally visible calls it
issued (a trace of `Ev` events).
-/

namespace DarwinRebuild

/-- JSON values, modelling `serde_json::Value`.  Numbers are irrelevant to the
fields the program reads and are modelled as integers. -/
inductive JVal where
  | null
  | jbool (b : Bool)
  | jstr (s : String)
  | jnum (n : Int)
  | jarr (xs : List JVal)
  | jobj (fields : List (String × JVal))

/-- Field lookup on a JSON value, modelling `serde_json::Value`'s `Index<&str>`:
on an object it returns the first binding of the key, otherwise (missing key or
non-object) it returns `Null`. -/
def JVal.get (v : JVal) (k : String) : JVal :=
  match v with
  | .jobj fields => lookupField fields
  | _ => .null
where
  lookupField : List (String × JVal) → JVal
    | [] => .null
    | (k', v') :: rest => if k' = k then v' else lookupField rest

/-! ## The URI-reference grammar

Both `NixDarwinRunner::parse_flake` (src/runner/nix_darwin_runner.rs:72) and
`main` (src/main.rs:87) decompose the flake reference with the regex
`^(([^:/?#]+):)?(//([^/?#]*))?([^?#]*)(\?([^#]*))?(#(.*))?`.

The regex is anchored, every group is optional, and each character class is
disjoint from the delimiter that follows it, so matching is deterministic and
needs no backtracking; we embed it as a total function on `List Char`:
* the fragment is everything after the first `#`;
* the query is everything after the first `?` preceding the fragment;
* a scheme exists iff a non-empty run of characters outside `:/?#` is followed
  by `:`;
* an authority exists iff the remainder then starts with `//`.
-/

/-- Characters allowed in the scheme group `[^:/?#]`. -/
def schemeOk (c : Char) : Bool := !(c == ':' || c == '/' || c == '?' || c == '#')

/-- Characters allowed in the authority group `[^/?#]`. -/
def authOk (c : Char) : Bool := !(c == '/' || c == '?' || c == '#')

/-- Characters allowed before the fragment delimiter. -/
def notHash (c : Char) : Bool := !(c == '#')

/-- Characters allowed before the query delimiter. -/
def notQm (c : Char) : Bool := !(c == '?')

/-- Split a character list at the first character violating `p`: the part
before it and, when such a character exists, the part after it. -/
def splitOn1 (p : Char → Bool) (s : List Char) : List Char × Option (List Char) :=
  match s.dropWhile p with
  | [] => (s.takeWhile p, none)
  | _ :: t => (s.takeWhile p, some t)

/-- The scheme group `(([^:/?#]+):)?`: a non-empty run of scheme characters
immediately followed by `:`.  Returns the scheme (without the colon) and the
unconsumed remainder. -/
def parseSchemeSplit (s : List Char) : Option (List Char) × List Char :=
  match s.dropWhile schemeOk with
  | c :: t =>
    if c == ':' && !(s.takeWhile schemeOk).isEmpty then (some (s.takeWhile schemeOk), t)
    else (none, s)
  | [] => (none, s)

/-- The authority group `(//([^/?#]*))?`: a literal `//` followed by authority
characters.  Returns the authority (without the slashes) and the remainder. -/
def parseAuthoritySplit (s : List Char) : Option (List Char) × List Char :=
  match s with
  | c1 :: c2 :: t =>
    if c1 == '/' && c2 == '/' then (some (t.takeWhile authOk), t.dropWhile authOk)
    else (none, s)
  | _ => (none, s)

/-- The five capture groups of the flake-reference regex.  `scheme` omits the
trailing `:`, `authority` the leading `//`, `query` the leading `?`, and
`fragment` the leading `#`, matching the inner regex groups. -/
structure UriParts where
  scheme : Option (List Char)
  authority : Option (List Char)
  path : List Char
  query : Option (List Char)
  fragment : Option (List Char)
deriving Repr, DecidableEq

/-- Total decomposition of a reference per the regex. -/
def parseUri (s : List Char) : UriParts :=
  let f := splitOn1 notHash s
  let q := splitOn1 notQm f.1
  let sch := parseSchemeSplit q.1
  let auth := parseAuthoritySplit sch.2
  { scheme := sch.1, authority := auth.1, path := auth.2, query := q.2, fragment := f.2 }

/-- Reconstruction of `scheme + authority + path + query` exactly as the source
concatenates capture groups 1, 3, 5 and 6 (`format!("{}{}{}{}", scheme,
authority, path, query_with_question)`), i.e. scheme including its `:`,
authority including `//`, query including `?`. -/
def reconUri (p : UriParts) : List Char :=
  (match p.scheme with | some s => s ++ [':'] | none => [])
    ++ (match p.authority with | some a => '/' :: '/' :: a | none => [])
    ++ p.path
    ++ (match p.query with | some q => '?' :: q | none => [])

/-- `Regex::captures` on the flake regex, which matches every string (all
groups are optional and `path` may be empty), so it always returns `Some`. -/
def reCaptures (s : String) : Option UriParts := some (parseUri s.data)

/-! ## Effects and the external world

Every embedded operation returns its result together with a trace of the
externally visible calls it issued, in order. -/

/-- Externally visible calls. -/
inductive Ev where
  | tempdirCreate
  | tempdirRemove
  | hostnameQuery
  | metadataQuery
  | buildFlake
  | buildLegacy
  | lsCall
  | nvdDiff
  | profileSet (esc : Bool)
  | profileRun (esc : Bool)
  | activateUser
  | activateSystem (esc : Bool)
  | findFile
  | editFlake
  | editFile
  | readSystemConfig
  | realPathQuery
  | changelogPrint
  | completionsGen
deriving Repr, DecidableEq

/-- A child process' exit, modelling `std::process::ExitStatus`: `code` is
`none` when the process was terminated by a signal; `success()` is
`code = some 0`. -/
structure MOut where
  code : Option Int
  stdoutJson : Option JVal

/-- A captured `Output` of the legacy `nix-build` call: exit code and the raw
standard output text. -/
structure BOut where
  code : Option Int
  stdout : String
deriving Repr, DecidableEq

/-- Oracle responses of the external world: one field per external call the
embedded code can make.  Child processes and filesystem accesses are
deterministic oracles; `Except.error` models a spawn/IO failure of the
corresponding call, exit codes are delivered in the payload. -/
structure World where
  /-- `gethostname` (`nix_commands::get_local_hostname`). -/
  hostname : Except String String
  /-- `nix flake metadata --version` probe (`nix_command_supports_flake_metadata`). -/
  supportsFlakeMetadata : Bool
  /-- `nix flake {metadata|info} --json` call: spawn failure, or exit code plus
  the `serde_json` parse of its stdout (`none` = stdout is not valid JSON). -/
  metadataOutcome : Except String MOut
  /-- `tempfile::Builder::tempdir()`: the created directory's path. -/
  tempdir : Except String String
  /-- `Exec::cmd("nix")…build… | Exec::cmd("nom")`.`join()`: spawn failure or
  the pipeline's exit code (a non-zero code is delivered as `Except.ok`). -/
  pipelineJoin : Except String Int
  /-- `Exec::cmd("ls")…join()`. -/
  lsJoin : Except String Int
  /-- `Exec::cmd("nvd")…join()`. -/
  nvdJoin : Except String Int
  /-- Legacy `nix-build` call (`Command::output`). -/
  nixBuildOutput : Except String BOut
  /-- `nix_commands::is_root_user()` as used by the `NixDarwinRunner` variant
  (`env USER == "root"`, a `Result`). -/
  isRoot : Except String Bool
  /-- `fs::metadata(path).permissions().readonly()`: `none` when the path does
  not exist (the `fs::metadata` error). -/
  fsReadOnly : String → Option Bool
  /-- `sudo nix-env -p … --set …` exit. -/
  setProfileSudoStatus : Except String Int
  /-- `nix-env -p … --set …` exit. -/
  setProfileStatus : Except String Int
  /-- `sudo nix-env -p … <flags>` exit (rollback / list-generations). -/
  profileCmdSudoStatus : Except String Int
  /-- `nix-env -p … <flags>` exit (rollback / list-generations). -/
  profileCmdStatus : Except String Int
  /-- `<system_config>/activate-user` exit. -/
  activateUserStatus : Except String Int
  /-- `sudo <system_config>/activate` exit. -/
  activateSudoStatus : Except String Int
  /-- `<system_config>/activate` exit. -/
  activateStatus : Except String Int
  /-- `fs::read_to_string(<profile>/systemConfig)`. -/
  systemConfigFile : String → Except String String
  /-- `std::env::args().next()` — the executable path, always present. -/
  argv0 : String
  /-- `fs::canonicalize` of the stripped executable path (`get_real_path`). -/
  realPath : Except String String
  /-- `nix-instantiate --find-file darwin-config`. -/
  findFileResult : Except String String
  /-- `nix … edit` call, through `handle_output_result`. -/
  nixEditOutcome : Except String MOut
  /-- `fs::read_to_string(<profile>/darwin-changes)`. -/
  changelogRead : Except String String
  /-- `env::var("profile")`. -/
  profileEnv : Option String
  /-- `fs::create_dir_all` of the named profile's parent directory. -/
  createDirAll : Except String Unit

/-- Modelled from the spec: the crate root (not under `src/`) defines the
`DEFAULT_PROFILE` constant, "a well-known system profile path"; its value is
the nix-darwin system profile link. -/
def DEFAULT_PROFILE : String := "/nix/var/nix/profiles/system"

/-! ## `src/nix_commands.rs` -/

/-- `nix_commands::handle_output_result`: a spawn failure or an unreadable exit
code is an error; otherwise the captured output is returned unchanged — note a
non-zero exit code is only logged, not turned into an error. -/
def handle_output_result (outcome : Except String MOut) : Except String MOut :=
  match outcome with
  | .error e => .error e
  | .ok o =>
    match o.code with
    | none => .error "unable to get status code for command output"
    | some _ => .ok o

/-- `nix_commands::get_flake_metadata`: run the metadata subcommand through
`handle_output_result`, then `serde_json::from_slice` on its stdout. -/
def get_flake_metadata (w : World) : Except String JVal × List Ev :=
  match handle_output_result w.metadataOutcome with
  | .error e => (.error e, [.metadataQuery])
  | .ok o =>
    match o.stdoutJson with
    | none => (.error "EOF while parsing a value", [.metadataQuery])
    | some v => (.ok v, [.metadataQuery])

/-- `nix_commands::nix_flake_build`, `nom = true` path (the `else` branch is
dead code): pipe `nix build --log-format internal-json` into `nom`, then run
`ls -l` and `nvd diff`, and return the out-link.  `cmd.join()?` fails only on
spawn errors; the pipeline's exit status is bound to `result`, logged, and
otherwise ignored. -/
def nix_flake_build (w : World) (outDir : String) : Except String String × List Ev :=
  match w.pipelineJoin with
  | .error e => (.error e, [.buildFlake])
  | .ok _result =>
    match w.lsJoin with
    | .error e => (.error e, [.buildFlake, .lsCall])
    | .ok _ =>
      match w.nvdJoin with
      | .error e => (.error e, [.buildFlake, .lsCall, .nvdDiff])
      | .ok _ => (.ok outDir, [.buildFlake, .lsCall, .nvdDiff])

/-- `nix_commands::nix_build` (legacy `<darwin>` build): the `Output` passes
through `handle_output_result` — which accepts a non-zero exit — and the
trimmed stdout is returned. -/
def nix_build (w : World) : Except String String × List Ev :=
  match w.nixBuildOutput with
  | .error e => (.error e, [.buildLegacy])
  | .ok o =>
    match o.code with
    | none => (.error "unable to get status code for command output", [.buildLegacy])
    | some _ => (.ok o.stdout.trim, [.buildLegacy])

/-- `nix_commands::is_read_only` (same body as `cli::is_read_only`):
`fs::metadata(path)?.permissions().readonly()` — a missing path propagates the
metadata error. -/
def is_read_only (fs : String → Option Bool) (path : String) : Except String Bool :=
  match fs path with
  | none => .error "No such file or directory (os error 2)"
  | some ro => .ok ro

/-- `nix_commands::exec_activate_user` then the root check and
`sudo_exec_activate` / `exec_activate`, i.e.
`NixDarwinRunner::activate_profile` (src/runner/nix_darwin_runner.rs:187-198).
`BuildRunner`'s free function `activate_profile` (src/build_runner.rs:289-303)
has the same structure with the non-fallible `is_root_user`. -/
def activate_profile (w : World) : Except String Unit × List Ev :=
  match w.activateUserStatus with
  | .error e => (.error e, [.activateUser])
  | .ok c =>
    if c == 0 then
      match w.isRoot with
      | .error e => (.error e, [.activateUser])
      | .ok isRoot =>
        if !isRoot then
          match w.activateSudoStatus with
          | .error e => (.error e, [.activateUser, .activateSystem true])
          | .ok c2 =>
            if c2 == 0 then (.ok (), [.activateUser, .activateSystem true])
            else (.error "Failed to run sudo activate", [.activateUser, .activateSystem true])
        else
          match w.activateStatus with
          | .error e => (.error e, [.activateUser, .activateSystem false])
          | .ok c2 =>
            if c2 == 0 then (.ok (), [.activateUser, .activateSystem false])
            else (.error "Failed to run activate", [.activateUser, .activateSystem false])
    else (.error "Failed to run activate-user", [.activateUser])

/-! ## `src/cli.rs`, `src/runner/nix_darwin_action.rs` — the action types -/

/-- The `cli::Action` subcommands convertible into a `NixDarwinAction`
(src/runner/nix_darwin_action.rs lists exactly these `From` arms). -/
inductive SubAction where
  | edit
  | switch
  | activate
  | build
  | check
  | changelog
  | completions
deriving Repr, DecidableEq

/-- `NixDarwinAction` (src/runner/nix_darwin_action.rs). -/
inductive NAction where
  | rollback
  | listGenerations
  | edit
  | switch
  | activate
  | build
  | check
  | changelog
  | completions
deriving Repr, DecidableEq

/-- `impl From<Action> for NixDarwinAction`. -/
def toNixAction : SubAction → NAction
  | .edit => .edit
  | .switch => .switch
  | .activate => .activate
  | .build => .build
  | .check => .check
  | .changelog => .changelog
  | .completions => .completions

/-- The `cli::Cli` fields the orchestrator reads. -/
structure Args where
  action : Option SubAction
  rollback : Bool
  list_generations : Bool
  profile_name : Option String
  flake : Option String
deriving Repr, DecidableEq

/-! ## `src/runner/nix_darwin_runner.rs` — `NixDarwinRunner` -/

/-- The `NixDarwinRunner` struct. -/
structure Runner where
  action : Option SubAction
  rollback : Bool
  list_generations : Bool
  profile : String
  flake : Option String
  flake_attr : String
deriving Repr, DecidableEq

/-- Rust's `str::parse::<bool>()`: accepts exactly `"true"` and `"false"`. -/
def rustParseBool (s : String) : Option Bool :=
  if s = "true" then some true else if s = "false" then some false else none

/-- The submodule folding of `NixDarwinRunner::parse_flake`
(src/runner/nix_darwin_runner.rs:103-126): `&submodules=1` when the locked URL
already contains `?`, else `?submodules=1`. -/
def appendSubmodules (fv : String) : String :=
  -- `String::contains('?')`: the character `?` occurs in the string
  if fv.data.contains '?' then fv ++ "&submodules=1" else fv ++ "?submodules=1"

/-- The `match &metadata["resolved"]["submodules"]` arms of
`NixDarwinRunner::parse_flake`: a string is `str::parse`d to a boolean, `true`
appends the submodule query, `false` and `Null` leave the URL unchanged, and
any other shape is a `submodules is not a boolean` error. -/
def applySubmodules (metadata : JVal) (flakeValue : String) : Except String String :=
  match (metadata.get "resolved").get "submodules" with
  | .jstr s =>
    match rustParseBool s with
    | none => .error "provided string was not `true` or `false`"
    | some b => .ok (if b then appendSubmodules flakeValue else flakeValue)
  | .jbool true => .ok (appendSubmodules flakeValue)
  | .jbool false => .ok flakeValue
  | .null => .ok flakeValue
  | _ => .error "submodules is not a boolean"

/-- The `url` validation of `NixDarwinRunner::parse_flake`
(src/runner/nix_darwin_runner.rs:94-101): an empty string and any non-string
shape are errors. -/
def extractUrl (metadata : JVal) : Except String String :=
  match metadata.get "url" with
  | .jstr e => if e.isEmpty then .error "flake url is empty" else .ok e
  | _ => .error "flake url is not a string"

/-- `NixDarwinRunner::parse_flake` (src/runner/nix_darwin_runner.rs:67-138).
With no `--flake` argument the outer `else` returns `(None, "")` without the
`format!`.  With a flake value the regex always captures (the inner `else` is
dead code but kept: it yields `(None, "")` and then the `format!`); the
attribute is the fragment, else the local host name (failure is fatal); the
reference is rebuilt without the fragment; the metadata subcommand (after the
best-effort capability probe, which chooses `metadata` vs `info` and does not
affect the modelled outcome) must deliver JSON with a valid `url`; the
submodule flag is folded into the URL. -/
def NixDarwinRunner.parse_flake (w : World) (flakeArg : Option String) :
    Except String (Option String × String) × List Ev :=
  match flakeArg with
  | none => (.ok (none, ""), [])
  | some flakeValue =>
    match reCaptures flakeValue with
    | some caps =>
      let attrStep : Except String String × List Ev :=
        match caps.fragment with
        | some e => (.ok (String.mk e), [])
        | none =>
          match w.hostname with
          | .ok e => (.ok e, [.hostnameQuery])
          | .error err => (.error ("Failed to get local hostname: " ++ err), [.hostnameQuery])
      match attrStep with
      | (.error e, tr) => (.error e, tr)
      | (.ok flakeAttr, tr) =>
        -- flake_value := scheme ++ authority ++ path ++ query_with_question
        let _flakeValue2 := String.mk (reconUri caps)
        -- let cmd := if w.supportsFlakeMetadata then "metadata" else "info"
        match get_flake_metadata w with
        | (.error e, tr2) => (.error ("Failed to get flake metadata: " ++ e), tr ++ tr2)
        | (.ok metadata, tr2) =>
          match extractUrl metadata with
          | .error e => (.error e, tr ++ tr2)
          | .ok url =>
            match applySubmodules metadata url with
            | .error e => (.error e, tr ++ tr2)
            | .ok flake =>
              (.ok (some flake, "darwinConfigurations." ++ flakeAttr), tr ++ tr2)
    | none => (.ok (none, "darwinConfigurations."), [])

/-- `NixDarwinRunner::parse_profile` (src/runner/nix_darwin_runner.rs:50-65):
a non-`"system"` profile name is namespaced under the system-profiles
directory (creating the parent directory), otherwise the `profile` environment
variable or `DEFAULT_PROFILE`; an empty result is an error. -/
def NixDarwinRunner.parse_profile (w : World) (profileName : Option String) :
    Except String String :=
  let defaultValue := match w.profileEnv with | some v => v | none => DEFAULT_PROFILE
  let result : Except String String :=
    match profileName with
    | some p =>
      if p ≠ "system" then
        -- Path::new(&profile).parent() of this concrete path never fails
        match w.createDirAll with
        | .error e => .error e
        | .ok _ => .ok ("/nix/var/nix/profiles/system-profiles/" ++ p)
      else .ok defaultValue
    | none => .ok defaultValue
  match result with
  | .error e => .error e
  | .ok e => if e.isEmpty then .error "profile is empty" else .ok e

/-- `NixDarwinRunner::new` (src/runner/nix_darwin_runner.rs:29-48). -/
def NixDarwinRunner.new (w : World) (args : Args) : Except String Runner × List Ev :=
  match NixDarwinRunner.parse_profile w args.profile_name with
  | .error e => (.error e, [])
  | .ok profile =>
    match NixDarwinRunner.parse_flake w args.flake with
    | (.error e, tr) => (.error e, tr)
    | (.ok fp, tr) =>
      (.ok { action := args.action, rollback := args.rollback,
             list_generations := args.list_generations, profile,
             flake := fp.1, flake_attr := fp.2 }, tr)

/-- `NixDarwinRunner::build_configuration`
(src/runner/nix_darwin_runner.rs:140-150): flake mode runs `nix_flake_build`,
otherwise the legacy `nix_build` on `<darwin>`. -/
def Runner.build_configuration (w : World) (r : Runner) (outDir : String) :
    Except String String × List Ev :=
  match r.flake with
  | some _ => nix_flake_build w outDir
  | none => nix_build w

/-- `NixDarwinRunner::switch_profile` (src/runner/nix_darwin_runner.rs:152-164):
escalate iff not root and the profile is read-only; both `is_root_user()?` and
`is_read_only(..)?` are evaluated up front and their failures propagate. -/
def Runner.switch_profile (w : World) (r : Runner) : Except String Unit × List Ev :=
  match w.isRoot with
  | .error e => (.error e, [])
  | .ok isRoot =>
    match is_read_only w.fsReadOnly r.profile with
    | .error e => (.error e, [])
    | .ok ro =>
      if !isRoot && ro then
        match w.setProfileSudoStatus with
        | .error e => (.error e, [.profileSet true])
        | .ok c =>
          if c == 0 then (.ok (), [.profileSet true])
          else (.error "Failed to run sudo nix-env --set", [.profileSet true])
      else
        match w.setProfileStatus with
        | .error e => (.error e, [.profileSet false])
        | .ok c =>
          if c == 0 then (.ok (), [.profileSet false])
          else (.error "Failed to run nix-env --set", [.profileSet false])

/-- `NixDarwinRunner::run_profile` (src/runner/nix_darwin_runner.rs:166-185):
the same escalation decision as `switch_profile`; any join failure or
unsuccessful exit is the single `Failed to run sudo nix-env` error. -/
def Runner.run_profile (w : World) (r : Runner) : Except String Unit × List Ev :=
  match w.isRoot with
  | .error e => (.error e, [])
  | .ok isRoot =>
    match is_read_only w.fsReadOnly r.profile with
    | .error e => (.error e, [])
    | .ok ro =>
      let esc := !isRoot && ro
      match (if esc then w.profileCmdSudoStatus else w.profileCmdStatus) with
      | .error _ => (.error "Failed to run sudo nix-env", [.profileRun esc])
      | .ok c =>
        if c == 0 then (.ok (), [.profileRun esc])
        else (.error "Failed to run sudo nix-env", [.profileRun esc])

/-! ## `src/runner/runnable.rs` — `Runnable::run` for `NixDarwinRunner` -/

/-- Action selection of `Runnable::run` (src/runner/runnable.rs:33-41): an
explicit subcommand wins; otherwise the rollback flag, then the
list-generations flag; with neither, `No action specified`. -/
def select_action (r : Runner) : Except String NAction :=
  match r.action with
  | some action => .ok (toNixAction action)
  | none =>
    if r.rollback then .ok .rollback
    else if r.list_generations then .ok .listGenerations
    else .error "No action specified"

/-- The action dispatch of `Runnable::run` (src/runner/runnable.rs:44-92),
after the temporary directory exists.  `outLink` is `<tempdir>/result`.  The
`cfg(debug_assertions)` blocks are debug-build-only and not part of release
semantics.  The `unwrap()` on reading `systemConfig` panics on failure; the
panic is modelled as a run-terminating error (unwinding also removes the
temporary directory). -/
def Runner.runBody (w : World) (r : Runner) (outLink : String) :
    Except String Unit × List Ev :=
  match select_action r with
  | .error e => (.error e, [])
  | .ok action =>
    match action with
    | .rollback =>
      -- extra_profile_flags = ["--rollback"]
      match Runner.run_profile w r with
      | (.error e, tr) => (.error e, tr)
      | (.ok _, tr) =>
        match w.systemConfigFile r.profile with
        | .error e => (.error ("panicked: " ++ e), tr ++ [.readSystemConfig])
        | .ok _systemConfig =>
          match activate_profile w with
          | (res, tr2) => (res, tr ++ [.readSystemConfig] ++ tr2)
    | .listGenerations =>
      -- extra_profile_flags = ["--list-generations"]
      Runner.run_profile w r
    | .edit =>
      match w.findFileResult with
      | .error e => (.error e, [.findFile])
      | .ok _darwinConfig =>
        match r.flake with
        | some _ =>
          -- nix edit, through handle_output_result (non-zero exit accepted)
          match handle_output_result w.nixEditOutcome with
          | .error e => (.error e, [.findFile, .editFlake])
          | .ok _ => (.ok (), [.findFile, .editFlake])
        | none =>
          -- exec_editor replaces the process image; modelled as a terminal success
          (.ok (), [.findFile, .editFile])
    | .activate =>
      let _path := (w.argv0).replace "/sw/bin/darwin-rebuild" ""
      match w.realPath with
      | .error e => (.error e, [.realPathQuery])
      | .ok _systemConfig =>
        match activate_profile w with
        | (res, tr) => (res, .realPathQuery :: tr)
    | .build =>
      match Runner.build_configuration w r outLink with
      | (.error e, tr) => (.error e, tr)
      | (.ok _, tr) => (.ok (), tr)
    | .check =>
      match Runner.build_configuration w r outLink with
      | (.error e, tr) => (.error e, tr)
      | (.ok _systemConfig, tr) =>
        -- env::set_var("checkActivation", "1"), then the user-level activation only
        match w.activateUserStatus with
        | .error e => (.error e, tr ++ [.activateUser])
        | .ok c =>
          if c == 0 then (.ok (), tr ++ [.activateUser])
          else (.error "Failed to run activate-user", tr ++ [.activateUser])
    | .switch =>
      match Runner.build_configuration w r outLink with
      | (.error e, tr) => (.error e, tr)
      | (.ok _systemConfig, tr) =>
        match Runner.switch_profile w r with
        | (.error e, tr2) => (.error e, tr ++ tr2)
        | (.ok _, tr2) =>
          match activate_profile w with
          | (res, tr3) => (res, tr ++ tr2 ++ tr3)
    | .changelog =>
      match w.changelogRead with
      | .error e => (.error e, [])
      | .ok _ => (.ok (), [.changelogPrint])
    | .completions => (.ok (), [.completionsGen])

/-- `Runnable::run` for `NixDarwinRunner` (src/runner/runnable.rs:20-95): a
fresh temporary out-directory is created first, the selected action's steps
run, and the directory is dropped before returning.  `tempfile::TempDir`
removes the directory on drop; Rust's scope discipline runs that drop on every
exit path (the explicit `drop(out_dir)`, `?` propagation, and panic
unwinding alike), modelled as the unconditional trailing `tempdirRemove`. -/
def Runner.run (w : World) (r : Runner) : Except String Unit × List Ev :=
  match w.tempdir with
  | .error e => (.error e, [])
  | .ok dir =>
    match Runner.runBody w r (dir ++ "/result") with
    | (res, tr) => (res, .tempdirCreate :: (tr ++ [.tempdirRemove]))

/-- Construction followed by the run: `NixDarwinRunner::new(&cli)?.run()`.  A
construction failure (e.g. flake resolution) aborts before `run` starts. -/
def NixDarwinRunner.newRun (w : World) (args : Args) : Except String Unit × List Ev :=
  match NixDarwinRunner.new w args with
  | (.error e, tr) => (.error e, tr)
  | (.ok r, tr) =>
    match Runner.run w r with
    | (res, tr2) => (res, tr ++ tr2)

/-! ## `src/build_runner.rs` — the `BuildRunner` variant

This variant's `is_root_user` is the plain boolean `env USER == "root"`
(src/nix_commands.rs:249-252), taken here as a `Bool` argument. -/

/-- Action selection of `Runnable::run` for `BuildRunner`
(src/build_runner.rs:170-176): the rollback flag wins, then the
list-generations flag, then the subcommand. -/
def BuildRunner.select_action (rollback list_generations : Bool) (action : SubAction) :
    NAction :=
  if rollback then .rollback
  else if list_generations then .listGenerations
  else toNixAction action

/-- `build_runner::switch_profile` (src/build_runner.rs:251-267): escalate iff
not root and the profile is read-only — the same decision as
`NixDarwinRunner::switch_profile`. -/
def BuildRunner.switch_profile (isRoot : Bool) (w : World) (profile : String) :
    Except String Unit × List Ev :=
  match is_read_only w.fsReadOnly profile with
  | .error e => (.error e, [])
  | .ok ro =>
    if !isRoot && ro then
      match w.setProfileSudoStatus with
      | .error e => (.error e, [.profileSet true])
      | .ok c =>
        if c == 0 then (.ok (), [.profileSet true])
        else (.error "Failed to run sudo nix-env --set", [.profileSet true])
    else
      match w.setProfileStatus with
      | .error e => (.error e, [.profileSet false])
      | .ok c =>
        if c == 0 then (.ok (), [.profileSet false])
        else (.error "Failed to run nix-env --set", [.profileSet false])

/-- `build_runner::run_profile` (src/build_runner.rs:305-319):
`if !is_root_user() && !is_read_only(profile)?` — escalate iff not root and
the profile is writable, the opposite writability condition of
`switch_profile` in the same file.  `&&` short-circuits, so the permission
bits are only read when not root. -/
def BuildRunner.run_profile (isRoot : Bool) (w : World) (profile : String) :
    Except String Unit × List Ev :=
  if !isRoot then
    match is_read_only w.fsReadOnly profile with
    | .error e => (.error e, [])
    | .ok ro =>
      if !ro then
        match w.profileCmdSudoStatus with
        | .error e => (.error e, [.profileRun true])
        | .ok c =>
          if c == 0 then (.ok (), [.profileRun true])
          else (.error "Failed to run sudo nix-env", [.profileRun true])
      else
        match w.profileCmdStatus with
        | .error e => (.error e, [.profileRun false])
        | .ok c =>
          if c == 0 then (.ok (), [.profileRun false])
          else (.error "Failed to run nix-env", [.profileRun false])
  else
    match w.profileCmdStatus with
    | .error e => (.error e, [.profileRun false])
    | .ok c =>
      if c == 0 then (.ok (), [.profileRun false])
      else (.error "Failed to run nix-env", [.profileRun false])

/-! ## `src/main.rs` — the inline variant -/

/-- The `cli::Action` enum of the inline variant (src/cli.rs:71-81), which has
explicit `List` and `Rollback` subcommands. -/
inductive MAction where
  | list
  | rollback
  | edit
  | switch
  | activate
  | build
  | check
  | changelog
deriving Repr, DecidableEq

/-- Action selection of `main` (src/main.rs:62-70): the rollback flag wins,
then the list-generations flag, then the subcommand. -/
def mainSelectAction (rollback list_generations : Bool) (action : MAction) : MAction :=
  if rollback then .rollback
  else if list_generations then .list
  else action

/-- The List/Rollback profile-command branch of `main` (src/main.rs:149-155):
`if !is_root_user() && !is_read_only(&profile)?` — escalate iff not root and
the profile is writable. -/
def mainProfileCommand (isRoot : Bool) (w : World) (profile : String) :
    Except String Unit × List Ev :=
  if !isRoot then
    match is_read_only w.fsReadOnly profile with
    | .error e => (.error e, [])
    | .ok ro =>
      if !ro then
        match w.profileCmdSudoStatus with
        | .error e => (.error e, [.profileRun true])
        | .ok c =>
          if c == 0 then (.ok (), [.profileRun true])
          else (.error "Failed to run sudo nix-env", [.profileRun true])
      else
        match w.profileCmdStatus with
        | .error e => (.error e, [.profileRun false])
        | .ok c =>
          if c == 0 then (.ok (), [.profileRun false])
          else (.error "Failed to run nix-env", [.profileRun false])
  else
    match w.profileCmdStatus with
    | .error e => (.error e, [.profileRun false])
    | .ok c =>
      if c == 0 then (.ok (), [.profileRun false])
      else (.error "Failed to run nix-env", [.profileRun false])

/-- The Switch profile-set branch of `main` (src/main.rs:169-175):
`if !is_root_user() && !is_read_only(&profile)?` — escalate iff not root and
the profile is writable (also the inverted writability condition). -/
def mainSetProfile (isRoot : Bool) (w : World) (profile : String) :
    Except String Unit × List Ev :=
  if !isRoot then
    match is_read_only w.fsReadOnly profile with
    | .error e => (.error e, [])
    | .ok ro =>
      if !ro then
        match w.setProfileSudoStatus with
        | .error e => (.error e, [.profileSet true])
        | .ok c =>
          if c == 0 then (.ok (), [.profileSet true])
          else (.error "Failed to run sudo nix-env --set", [.profileSet true])
      else
        match w.setProfileStatus with
        | .error e => (.error e, [.profileSet false])
        | .ok c =>
          if c == 0 then (.ok (), [.profileSet false])
          else (.error "Failed to run nix-env --set", [.profileSet false])
  else
    match w.setProfileStatus with
    | .error e => (.error e, [.profileSet false])
    | .ok c =>
      if c == 0 then (.ok (), [.profileSet false])
      else (.error "Failed to run nix-env --set", [.profileSet false])

/-- The flake-attribute computation of `main` (src/main.rs:87-103): the
fragment capture, defaulting to `""`; if still empty, the host name (fatal on
failure); then the `darwinConfigurations.` prefix. -/
def mainFlakeAttr (w : World) (flakeValue : String) : Except String String × List Ev :=
  let flakeAttr :=
    match (parseUri flakeValue.data).fragment with
    | some e => String.mk e
    | none => ""
  if flakeAttr.isEmpty then
    match w.hostname with
    | .error e => (.error e, [.hostnameQuery])
    | .ok h => (.ok ("darwinConfigurations." ++ h), [.hostnameQuery])
  else (.ok ("darwinConfigurations." ++ flakeAttr), [])

/-- Modelled from the spec (section 4.3 Privilege Policy, the decision the
claims assert): "Escalation is required iff identity is non-administrator AND
the target is not writable" — with "not writable" the read-only permission
bit. -/
def specEscalation (isRoot readOnly : Bool) : Bool := !isRoot && readOnly

/-! ## Concrete fixtures -/

/-- A world in which every external call succeeds: the build pipeline, profile
and activation commands exit 0, the metadata call returns a locked URL, the
invoking user is not root, and the profile link exists and is read-only. -/
def wOk : World where
  hostname := .ok "myhost"
  supportsFlakeMetadata := true
  metadataOutcome := .ok ⟨some 0,
    some (JVal.jobj [("url", JVal.jstr "github:o/r"),
                     ("resolved", JVal.jobj [("submodules", JVal.jbool false)])])⟩
  tempdir := .ok "/tmp/nix-darwin-x"
  pipelineJoin := .ok 0
  lsJoin := .ok 0
  nvdJoin := .ok 0
  nixBuildOutput := .ok ⟨some 0, "/nix/store/abc-system"⟩
  isRoot := .ok false
  fsReadOnly := fun _ => some true
  setProfileSudoStatus := .ok 0
  setProfileStatus := .ok 0
  profileCmdSudoStatus := .ok 0
  profileCmdStatus := .ok 0
  activateUserStatus := .ok 0
  activateSudoStatus := .ok 0
  activateStatus := .ok 0
  systemConfigFile := fun _ => .ok "/nix/store/abc-system"
  argv0 := "/run/current-system/sw/bin/darwin-rebuild"
  realPath := .ok "/run/current-system"
  findFileResult := .ok "/etc/nix-darwin/configuration.nix"
  nixEditOutcome := .ok ⟨some 0, none⟩
  changelogRead := .ok "changes"
  profileEnv := none
  createDirAll := .ok ()

/-- A constructed runner for a flake-mode Switch. -/
def rSwitchFlake : Runner where
  action := some .switch
  rollback := false
  list_generations := false
  profile := DEFAULT_PROFILE
  flake := some "github:o/r"
  flake_attr := "darwinConfigurations.myhost"

/-! ## C1 — build failures are not propagated (the `nom` pipeline) -/

/-- **C1** (code bug): with every call succeeding except the
`nix build … | nom` pipeline, which exits with status 1, `nix_flake_build`
still returns `Ok(out_dir)` — `cmd.join()?` only fails on spawn errors and the
bound exit status is merely logged — and a Switch run proceeds to set the
profile and activate, reporting overall success.  This contradicts the claim
(and the same function's dead `nom = false` branch, which checks
`output.status.success()` and bails with the captured stderr, as well as the
Switch arm's own debug assertion that the build output exists). -/
theorem c1_build_failure_not_propagated :
    ({ wOk with pipelineJoin := .ok 1 } : World).pipelineJoin = .ok 1 ∧
    nix_flake_build { wOk with pipelineJoin := .ok 1 } "/tmp/nix-darwin-x/result" =
      (.ok "/tmp/nix-darwin-x/result", [Ev.buildFlake, Ev.lsCall, Ev.nvdDiff]) ∧
    Runner.run { wOk with pipelineJoin := .ok 1 } rSwitchFlake =
      (.ok (), [Ev.tempdirCreate, Ev.buildFlake, Ev.lsCall, Ev.nvdDiff,
                Ev.profileSet true, Ev.activateUser, Ev.activateSystem true,
                Ev.tempdirRemove]) :=
  ⟨rfl, rfl, rfl⟩

/-! ## C2 — the escalation decision differs per call site -/

/-- **C2** (counterexample): the claimed decision — escalate iff
non-administrator and the profile not writable — does not govern every
privileged call.  With a non-root user and a *read-only* profile, the claimed
decision requires escalation, yet `BuildRunner`'s `run_profile` runs the
profile command *without* sudo; with a non-root user and a *writable* profile
the claimed decision forbids escalation, yet the system-level activation runs
*with* sudo. -/
theorem c2_counterexample :
    specEscalation false true = true ∧
    (BuildRunner.run_profile false wOk DEFAULT_PROFILE).2 = [Ev.profileRun false] ∧
    specEscalation false false = false ∧
    (activate_profile { wOk with fsReadOnly := fun _ => some false }).2 =
      [Ev.activateUser, Ev.activateSystem true] :=
  ⟨rfl, rfl, rfl, rfl⟩

/-- **C2** (amended): with identity `b` and the profile's read-only bit `ro`,
the call sites decide escalation as follows — `NixDarwinRunner::switch_profile`
and `run_profile` and `BuildRunner::switch_profile` escalate iff `!b && ro`
(non-root and read-only, as the spec claims); `BuildRunner::run_profile`,
`main`'s profile-command branch and `main`'s profile-set branch escalate iff
`!b && !ro` (non-root and *writable*, the inverted condition); the
system-level activation escalates iff `!b` alone, never consulting the
profile's writability. -/
theorem c2_escalation_per_site (w : World) (r : Runner) (b ro : Bool)
    (hroot : w.isRoot = .ok b)
    (hro : w.fsReadOnly r.profile = some ro)
    (huser : w.activateUserStatus = .ok 0) :
    (Runner.switch_profile w r).2 = [Ev.profileSet (!b && ro)] ∧
    (Runner.run_profile w r).2 = [Ev.profileRun (!b && ro)] ∧
    (BuildRunner.switch_profile b w r.profile).2 = [Ev.profileSet (!b && ro)] ∧
    (BuildRunner.run_profile b w r.profile).2 = [Ev.profileRun (!b && !ro)] ∧
    (mainProfileCommand b w r.profile).2 = [Ev.profileRun (!b && !ro)] ∧
    (mainSetProfile b w r.profile).2 = [Ev.profileSet (!b && !ro)] ∧
    (activate_profile w).2 = [Ev.activateUser, Ev.activateSystem (!b)] := by
  refine ⟨?_, ?_, ?_, ?_, ?_, ?_, ?_⟩
  · simp only [Runner.switch_profile, hroot, is_read_only, hro]
    cases hbro : (!b && ro)
    · simp only [hbro, Bool.false_eq_true, if_false]
      cases w.setProfileStatus <;> simp
      split <;> rfl
    · simp only [hbro, if_true]
      cases w.setProfileSudoStatus <;> simp
      split <;> rfl
  · simp only [Runner.run_profile, hroot, is_read_only, hro]
    cases hbro : (!b && ro)
    · simp only [hbro, Bool.false_eq_true, if_false]
      cases w.profileCmdStatus <;> simp
      split <;> rfl
    · simp only [hbro, if_true]
      cases w.profileCmdSudoStatus <;> simp
      split <;> rfl
  · simp only [BuildRunner.switch_profile, is_read_only, hro]
    cases hbro : (!b && ro)
    · simp only [hbro, Bool.false_eq_true, if_false]
      cases w.setProfileStatus <;> simp
      split <;> rfl
    · simp only [hbro, if_true]
      cases w.setProfileSudoStatus <;> simp
      split <;> rfl
  · simp only [BuildRunner.run_profile, is_read_only, hro]
    cases b
    · simp only [Bool.not_false, if_true]
      cases ro
      · simp only [Bool.not_false, if_true]
        cases w.profileCmdSudoStatus <;> simp
        split <;> rfl
      · simp only [Bool.not_true, Bool.false_eq_true, if_false]
        cases w.profileCmdStatus <;> simp
        split <;> rfl
    · simp only [Bool.not_true, Bool.false_eq_true, if_false]
      cases w.profileCmdStatus <;> simp
      split <;> rfl
  · simp only [mainProfileCommand, is_read_only, hro]
    cases b
    · simp only [Bool.not_false, if_true]
      cases ro
      · simp only [Bool.not_false, if_true]
        cases w.profileCmdSudoStatus <;> simp
        split <;> rfl
      · simp only [Bool.not_true, Bool.false_eq_true, if_false]
        cases w.profileCmdStatus <;> simp
        split <;> rfl
    · simp only [Bool.not_true, Bool.false_eq_true, if_false]
      cases w.profileCmdStatus <;> simp
      split <;> rfl
  · simp only [mainSetProfile, is_read_only, hro]
    cases b
    · simp only [Bool.not_false, if_true]
      cases ro
      · simp only [Bool.not_false, if_true]
        cases w.setProfileSudoStatus <;> simp
        split <;> rfl
      · simp only [Bool.not_true, Bool.false_eq_true, if_false]
        cases w.setProfileStatus <;> simp
        split <;> rfl
    · simp only [Bool.not_true, Bool.false_eq_true, if_false]
      cases w.setProfileStatus <;> simp
      split <;> rfl
  · simp only [activate_profile, huser, hroot]
    cases b
    · simp only [Bool.not_false, if_true]
      cases w.activateSudoStatus <;> simp
      split <;> rfl
    · simp only [Bool.not_true, Bool.false_eq_true, if_false]
      cases w.activateStatus <;> simp
      split <;> rfl

/-- Witness for `c2_escalation_per_site` at the concrete all-ok world (a
non-root user, a read-only profile). -/
theorem c2_escalation_per_site_witness :
    (Runner.switch_profile wOk rSwitchFlake).2 = [Ev.profileSet true] ∧
    (Runner.run_profile wOk rSwitchFlake).2 = [Ev.profileRun true] ∧
    (BuildRunner.switch_profile false wOk rSwitchFlake.profile).2 = [Ev.profileSet true] ∧
    (BuildRunner.run_profile false wOk rSwitchFlake.profile).2 = [Ev.profileRun false] ∧
    (mainProfileCommand false wOk rSwitchFlake.profile).2 = [Ev.profileRun false] ∧
    (mainSetProfile false wOk rSwitchFlake.profile).2 = [Ev.profileSet false] ∧
    (activate_profile wOk).2 = [Ev.activateUser, Ev.activateSystem true] :=
  c2_escalation_per_site wOk rSwitchFlake false true rfl rfl rfl

/-! ## C3 — action-selection precedence -/

/-- **C3** (counterexample): in `Runnable::run` for `NixDarwinRunner` the
subcommand is consulted *first*; with both the `build` subcommand and the
rollback flag supplied, `Build` is selected, not `Rollback`. -/
theorem c3_counterexample :
    select_action { action := some .build, rollback := true,
                    list_generations := false, profile := DEFAULT_PROFILE,
                    flake := none, flake_attr := "" } = .ok .build ∧
    (Except.ok NAction.build : Except String NAction) ≠ .ok .rollback := by
  refine ⟨rfl, by simp⟩

/-- **C3** (amended): in `main` and in `BuildRunner` the precedence is rollback
flag > list-generations flag > subcommand, exactly as claimed; in
`NixDarwinRunner` an explicitly supplied subcommand takes precedence over both
flags, and the rollback > list-generations precedence applies only when no
subcommand is present. -/
theorem c3_selection_per_variant (a : SubAction) (ma : MAction) (l : Bool) (r : Runner) :
    mainSelectAction true l ma = .rollback ∧
    mainSelectAction false true ma = .list ∧
    mainSelectAction false false ma = ma ∧
    BuildRunner.select_action true l a = .rollback ∧
    BuildRunner.select_action false true a = .listGenerations ∧
    BuildRunner.select_action false false a = toNixAction a ∧
    (r.action = some a → select_action r = .ok (toNixAction a)) ∧
    (r.action = none → r.rollback = true → select_action r = .ok .rollback) ∧
    (r.action = none → r.rollback = false → r.list_generations = true →
      select_action r = .ok .listGenerations) := by
  refine ⟨rfl, rfl, rfl, rfl, rfl, rfl, ?_, ?_, ?_⟩
  · intro h; simp [select_action, h]
  · intro h h2; simp [select_action, h, h2]
  · intro h h2 h3; simp [select_action, h, h2, h3]

/-- Witness for `c3_selection_per_variant` with the `build` subcommand against
a rollback-flagged runner. -/
theorem c3_selection_per_variant_witness :
    mainSelectAction true false MAction.build = .rollback ∧
    mainSelectAction false true MAction.build = .list ∧
    mainSelectAction false false MAction.build = MAction.build ∧
    BuildRunner.select_action true false SubAction.build = .rollback ∧
    BuildRunner.select_action false true SubAction.build = .listGenerations ∧
    BuildRunner.select_action false false SubAction.build = toNixAction SubAction.build ∧
    (({ rSwitchFlake with action := some SubAction.build } : Runner).action =
        some SubAction.build →
      select_action { rSwitchFlake with action := some SubAction.build } =
        .ok (toNixAction SubAction.build)) ∧
    (({ rSwitchFlake with action := some SubAction.build } : Runner).action = none →
      ({ rSwitchFlake with action := some SubAction.build } : Runner).rollback = true →
      select_action { rSwitchFlake with action := some SubAction.build } = .ok .rollback) ∧
    (({ rSwitchFlake with action := some SubAction.build } : Runner).action = none →
      ({ rSwitchFlake with action := some SubAction.build } : Runner).rollback = false →
      ({ rSwitchFlake with action := some SubAction.build } : Runner).list_generations = true →
      select_action { rSwitchFlake with action := some SubAction.build } =
        .ok .listGenerations) :=
  c3_selection_per_variant SubAction.build MAction.build false
    { rSwitchFlake with action := some SubAction.build }

/-! ## C5 — a missing profile path fails the privilege check -/

/-- **C5** (counterexample): on a filesystem where the profile path does not
exist, `is_read_only` propagates the `fs::metadata` error — the privilege
check *does* fail — and `switch_profile` aborts before issuing any profile
call, rather than treating the missing path as writable. -/
theorem c5_counterexample :
    is_read_only (fun _ => none) DEFAULT_PROFILE =
      .error "No such file or directory (os error 2)" ∧
    Runner.switch_profile { wOk with fsReadOnly := fun _ => none } rSwitchFlake =
      (.error "No such file or directory (os error 2)", []) :=
  ⟨rfl, rfl⟩

/-- **C5** (amended): for every profile path missing from the filesystem, the
privilege check fails: `is_read_only` returns the metadata error, and both
`switch_profile` and `run_profile` propagate it, issuing neither an escalated
nor a direct invocation. -/
theorem c5_missing_profile_is_error (fs : String → Option Bool) (p : String)
    (w : World) (r : Runner) (b : Bool)
    (hmiss : fs p = none) (hw : w.fsReadOnly = fs) (hp : r.profile = p)
    (hroot : w.isRoot = .ok b) :
    is_read_only fs p = .error "No such file or directory (os error 2)" ∧
    Runner.switch_profile w r = (.error "No such file or directory (os error 2)", []) ∧
    Runner.run_profile w r = (.error "No such file or directory (os error 2)", []) := by
  refine ⟨?_, ?_, ?_⟩
  · simp [is_read_only, hmiss]
  · simp [Runner.switch_profile, hroot, is_read_only, hw, hp, hmiss]
  · simp [Runner.run_profile, hroot, is_read_only, hw, hp, hmiss]

/-- Witness for `c5_missing_profile_is_error` on the empty filesystem. -/
theorem c5_missing_profile_is_error_witness :
    is_read_only (fun _ => none) DEFAULT_PROFILE =
      .error "No such file or directory (os error 2)" ∧
    Runner.switch_profile { wOk with fsReadOnly := fun _ => none } rSwitchFlake =
      (.error "No such file or directory (os error 2)", []) ∧
    Runner.run_profile { wOk with fsReadOnly := fun _ => none } rSwitchFlake =
      (.error "No such file or directory (os error 2)", []) :=
  c5_missing_profile_is_error (fun _ => none) DEFAULT_PROFILE
    { wOk with fsReadOnly := fun _ => none } rSwitchFlake false rfl rfl rfl rfl

/-! ## C8 — folding the submodule flag into the locked URL -/

theorem extractUrl_ok (md : JVal) (url : String)
    (hurl : md.get "url" = .jstr url) (hne : url ≠ "") :
    extractUrl md = .ok url := by
  unfold extractUrl
  rw [hurl]
  simp [String.isEmpty_iff, hne]

theorem applySubmodules_true (md : JVal) (fv : String)
    (h : (md.get "resolved").get "submodules" = .jbool true) :
    applySubmodules md fv = .ok (appendSubmodules fv) := by
  simp [applySubmodules, h]

theorem applySubmodules_id (md : JVal) (fv : String)
    (h : (md.get "resolved").get "submodules" = .jbool false ∨
         (md.get "resolved").get "submodules" = .null) :
    applySubmodules md fv = .ok fv := by
  rcases h with h | h <;> simp [applySubmodules, h]

theorem appendSubmodules_noQ (fv : String) (h : fv.data.contains '?' = false) :
    appendSubmodules fv = fv ++ "?submodules=1" := by
  simp only [appendSubmodules, h, Bool.false_eq_true, if_false]

theorem appendSubmodules_withQ (fv : String) (h : fv.data.contains '?' = true) :
    appendSubmodules fv = fv ++ "&submodules=1" := by
  simp only [appendSubmodules, h, if_true]

/-- **C8** (confirmed): when the metadata call delivers JSON `md` with a
non-empty string `url`, `NixDarwinRunner::parse_flake` folds
`resolved.submodules` into the locked reference exactly as claimed:
`submodules = true` appends `?submodules=1` to a URL without `?` and
`&submodules=1` to a URL already containing a query, while `false` and `null`
(which is also what indexing an absent field yields) leave the URL
unchanged. -/
theorem c8_submodules_folding (w : World) (fv url : String) (cd : Int) (md : JVal)
    (h : String)
    (hmo : w.metadataOutcome = .ok ⟨some cd, some md⟩)
    (hhost : w.hostname = .ok h)
    (hurl : md.get "url" = .jstr url) (hne : url ≠ "") :
    ((md.get "resolved").get "submodules" = .jbool true →
      (url.data.contains '?' = false →
        ∃ attr, (NixDarwinRunner.parse_flake w (some fv)).1 =
          .ok (some (url ++ "?submodules=1"), attr)) ∧
      (url.data.contains '?' = true →
        ∃ attr, (NixDarwinRunner.parse_flake w (some fv)).1 =
          .ok (some (url ++ "&submodules=1"), attr))) ∧
    (((md.get "resolved").get "submodules" = .jbool false ∨
        (md.get "resolved").get "submodules" = .null) →
      ∃ attr, (NixDarwinRunner.parse_flake w (some fv)).1 = .ok (some url, attr)) := by
  have hmd : get_flake_metadata w = (.ok md, [.metadataQuery]) := by
    simp [get_flake_metadata, handle_output_result, hmo]
  have hurlok : extractUrl md = .ok url := extractUrl_ok md url hurl hne
  have key : ∀ fl, applySubmodules md url = .ok fl →
      ∃ attr, (NixDarwinRunner.parse_flake w (some fv)).1 = .ok (some fl, attr) := by
    intro fl hfl
    cases hfrag : (parseUri fv.data).fragment with
    | some e =>
      refine ⟨"darwinConfigurations." ++ String.mk e, ?_⟩
      simp [NixDarwinRunner.parse_flake, reCaptures, hfrag, hmd, hurlok, hfl]
    | none =>
      refine ⟨"darwinConfigurations." ++ h, ?_⟩
      simp [NixDarwinRunner.parse_flake, reCaptures, hfrag, hhost, hmd, hurlok, hfl]
  constructor
  · intro htrue
    constructor
    · intro hq
      refine key _ ?_
      rw [applySubmodules_true md url htrue, appendSubmodules_noQ url hq]
    · intro hq
      refine key _ ?_
      rw [applySubmodules_true md url htrue, appendSubmodules_withQ url hq]
  · intro hflat
    exact key _ (applySubmodules_id md url hflat)

/-- Metadata JSON with `resolved.submodules = true`. -/
def mdSubTrue : JVal :=
  JVal.jobj [("url", JVal.jstr "github:o/r"),
             ("resolved", JVal.jobj [("submodules", JVal.jbool true)])]

/-- Witness for `c8_submodules_folding`: metadata with `submodules = true` and
a query-free URL. -/
theorem c8_submodules_folding_witness :
    ∃ attr,
      (NixDarwinRunner.parse_flake
        { wOk with metadataOutcome := .ok ⟨some 0, some mdSubTrue⟩ }
        (some "github:o/r#host")).1 =
      .ok (some ("github:o/r" ++ "?submodules=1"), attr) :=
  (((c8_submodules_folding { wOk with metadataOutcome := .ok ⟨some 0, some mdSubTrue⟩ }
      "github:o/r#host" "github:o/r" 0 mdSubTrue "myhost"
      rfl rfl rfl (by decide)).1 rfl).1 (by decide))

/-! ## List splitting lemmas -/

theorem takeWhile_all {α : Type} (p : α → Bool) :
    ∀ l : List α, (∀ c ∈ l, p c = true) → l.takeWhile p = l
  | [], _ => rfl
  | x :: xs, h => by
    have hx : p x = true := h x (List.mem_cons_self x xs)
    rw [List.takeWhile_cons, if_pos hx,
      takeWhile_all p xs fun c hc => h c (List.mem_cons_of_mem x hc)]

theorem dropWhile_all {α : Type} (p : α → Bool) :
    ∀ l : List α, (∀ c ∈ l, p c = true) → l.dropWhile p = []
  | [], _ => rfl
  | x :: xs, h => by
    have hx : p x = true := h x (List.mem_cons_self x xs)
    rw [List.dropWhile_cons, if_pos hx,
      dropWhile_all p xs fun c hc => h c (List.mem_cons_of_mem x hc)]

theorem takeWhile_append_stop {α : Type} (p : α → Bool) (l : List α) (x : α) (r : List α)
    (hl : ∀ c ∈ l, p c = true) (hx : p x = false) :
    (l ++ x :: r).takeWhile p = l ∧ (l ++ x :: r).dropWhile p = x :: r := by
  induction l with
  | nil => simp [List.takeWhile_cons, List.dropWhile_cons, hx]
  | cons y ys ih =>
    have hy : p y = true := hl y (List.mem_cons_self y ys)
    have ih2 := ih fun c hc => hl c (List.mem_cons_of_mem y hc)
    simp [List.takeWhile_cons, List.dropWhile_cons, hy, ih2.1, ih2.2]

theorem mem_takeWhile_pred {α : Type} (p : α → Bool) :
    ∀ l : List α, ∀ c ∈ l.takeWhile p, p c = true := by
  intro l
  induction l with
  | nil => intro c hc; cases hc
  | cons x xs ih =>
    intro c hc
    by_cases hx : p x = true
    · rw [List.takeWhile_cons, if_pos hx] at hc
      rcases List.mem_cons.mp hc with h | h
      · rwa [h]
      · exact ih c h
    · rw [List.takeWhile_cons, if_neg hx] at hc
      cases hc

theorem mem_dropWhile_mem {α : Type} (p : α → Bool) :
    ∀ l : List α, ∀ c ∈ l.dropWhile p, c ∈ l := by
  intro l
  induction l with
  | nil => intro c hc; cases hc
  | cons x xs ih =>
    intro c hc
    by_cases hx : p x = true
    · rw [List.dropWhile_cons, if_pos hx] at hc
      exact List.mem_cons_of_mem x (ih c hc)
    · rw [List.dropWhile_cons, if_neg hx] at hc
      exact hc

theorem dropWhile_head_false {α : Type} (p : α → Bool) :
    ∀ (l : List α) (x : α) (xs : List α), l.dropWhile p = x :: xs → p x = false := by
  intro l
  induction l with
  | nil => intro x xs h; cases h
  | cons y ys ih =>
    intro x xs h
    by_cases hy : p y = true
    · rw [List.dropWhile_cons, if_pos hy] at h
      exact ih x xs h
    · rw [List.dropWhile_cons, if_neg hy] at h
      cases h
      exact Bool.not_eq_true _ |>.mp hy

/-- `splitOn1` on a list whose elements all satisfy `p`. -/
theorem splitOn1_all (p : Char → Bool) (l : List Char)
    (h : ∀ c ∈ l, p c = true) : splitOn1 p l = (l, none) := by
  unfold splitOn1
  rw [dropWhile_all p l h, takeWhile_all p l h]

/-- `splitOn1` at an explicit first delimiter. -/
theorem splitOn1_append (p : Char → Bool) (l : List Char) (x : Char) (r : List Char)
    (hl : ∀ c ∈ l, p c = true) (hx : p x = false) :
    splitOn1 p (l ++ x :: r) = (l, some r) := by
  have h := takeWhile_append_stop p l x r hl hx
  unfold splitOn1
  rw [h.2, h.1]

/-! ## C4 — metadata-resolution failure -/

/-- The metadata call always contributes exactly its own query event. -/
theorem get_flake_metadata_trace (w : World) :
    (get_flake_metadata w).2 = [Ev.metadataQuery] := by
  unfold get_flake_metadata handle_output_result
  rcases w.metadataOutcome with e | ⟨code, json⟩
  · rfl
  · rcases code with _ | c
    · rfl
    · rcases json with _ | v <;> rfl

/-- Every event `NixDarwinRunner::parse_flake` emits is a host-name query or a
metadata query; in particular it issues no build call. -/
theorem parse_flake_trace_events (w : World) (fa : Option String) :
    ∀ e ∈ (NixDarwinRunner.parse_flake w fa).2,
      e = Ev.hostnameQuery ∨ e = Ev.metadataQuery := by
  cases fa with
  | none => intro e he; cases he
  | some fv =>
    unfold NixDarwinRunner.parse_flake
    simp only [reCaptures]
    rcases hg : get_flake_metadata w with ⟨res, tr⟩
    have htr : tr = [Ev.metadataQuery] := by
      have h2 := get_flake_metadata_trace w
      rw [hg] at h2
      exact h2
    subst htr
    cases hfrag : (parseUri fv.data).fragment with
    | some a =>
      simp only [hfrag, hg]
      cases res with
      | error e => simp
      | ok md =>
        cases hu : extractUrl md with
        | error e2 => simp [hu]
        | ok url =>
          cases hap : applySubmodules md url with
          | error e2 => simp [hu, hap]
          | ok fl => simp [hu, hap]
    | none =>
      simp only [hfrag]
      cases hh : w.hostname with
      | error err => simp [hh]
      | ok hname =>
        simp only [hh, hg]
        cases res with
        | error e => simp
        | ok md =>
          cases hu : extractUrl md with
          | error e2 => simp [hu]
          | ok url =>
            cases hap : applySubmodules md url with
            | error e2 => simp [hu, hap]
            | ok fl => simp [hu, hap]

/-- When flake resolution fails during construction, the whole
`new`-then-`run` pipeline issues no build call. -/
theorem newRun_no_build_of_parse_err (w : World) (args : Args) (fv : String)
    (hf : args.flake = some fv)
    (herr : ∃ e, (NixDarwinRunner.parse_flake w (some fv)).1 = .error e) :
    Ev.buildFlake ∉ (NixDarwinRunner.newRun w args).2 ∧
    Ev.buildLegacy ∉ (NixDarwinRunner.newRun w args).2 := by
  rcases herr with ⟨e, he⟩
  have key : ∀ ev, ev ∈ (NixDarwinRunner.newRun w args).2 →
      ev = Ev.hostnameQuery ∨ ev = Ev.metadataQuery := by
    intro ev hmem
    unfold NixDarwinRunner.newRun NixDarwinRunner.new at hmem
    rw [hf] at hmem
    rcases hp : NixDarwinRunner.parse_profile w args.profile_name with e2 | profile
    · simp only [hp] at hmem
      cases hmem
    · simp only [hp] at hmem
      rcases hpf : NixDarwinRunner.parse_flake w (some fv) with ⟨res, tr⟩
      rw [hpf] at he
      simp only at he
      subst he
      simp only [hpf] at hmem
      refine parse_flake_trace_events w (some fv) ev ?_
      rw [hpf]
      exact hmem
  constructor
  · intro hmem
    rcases key _ hmem with h | h <;> exact Ev.noConfusion h
  · intro hmem
    rcases key _ hmem with h | h <;> exact Ev.noConfusion h

/-- `get_flake_metadata` fails when the exit status is unreadable or the
captured stdout is not valid JSON. -/
theorem get_flake_metadata_err (w : World) (o : MOut)
    (hmo : w.metadataOutcome = .ok o)
    (h : o.stdoutJson = none ∨ o.code = none) :
    ∃ e, (get_flake_metadata w).1 = .error e := by
  rcases o with ⟨code, json⟩
  unfold get_flake_metadata handle_output_result
  rw [hmo]
  rcases code with _ | c
  · exact ⟨_, rfl⟩
  · rcases json with _ | v
    · exact ⟨_, rfl⟩
    · rcases h with h | h <;> exact absurd h (by simp)

/-- `parse_flake` fails whenever the metadata step fails. -/
theorem parse_flake_err_of_md_err (w : World) (fv : String)
    (hmd : ∃ e, (get_flake_metadata w).1 = .error e) :
    ∃ e, (NixDarwinRunner.parse_flake w (some fv)).1 = .error e := by
  rcases hmd with ⟨e, he⟩
  unfold NixDarwinRunner.parse_flake
  simp only [reCaptures]
  cases hfrag : (parseUri fv.data).fragment with
  | some a =>
    simp only [hfrag]
    rcases hg : get_flake_metadata w with ⟨res, tr⟩
    rw [hg] at he
    simp only at he
    subst he
    exact ⟨"Failed to get flake metadata: " ++ e, by simp [hg]⟩
  | none =>
    simp only [hfrag]
    cases hh : w.hostname with
    | error err => exact ⟨"Failed to get local hostname: " ++ err, by simp [hh]⟩
    | ok hname =>
      rcases hg : get_flake_metadata w with ⟨res, tr⟩
      rw [hg] at he
      simp only at he
      subst he
      exact ⟨"Failed to get flake metadata: " ++ e, by simp [hh, hg]⟩

/-- `parse_flake` fails whenever the delivered `url` field is missing, empty
or not string-typed. -/
theorem parse_flake_err_of_bad_url (w : World) (fv : String) (cd : Int) (md : JVal)
    (hmo : w.metadataOutcome = .ok ⟨some cd, some md⟩)
    (hbad : ∀ s, md.get "url" = .jstr s → s = "") :
    ∃ e, (NixDarwinRunner.parse_flake w (some fv)).1 = .error e := by
  have hmd : get_flake_metadata w = (.ok md, [.metadataQuery]) := by
    simp [get_flake_metadata, handle_output_result, hmo]
  have hurl : ∃ e, extractUrl md = .error e := by
    unfold extractUrl
    cases hu : md.get "url" with
    | jstr s =>
      have hs : s = "" := hbad s hu
      subst hs
      exact ⟨"flake url is empty", by rfl⟩
    | null => exact ⟨"flake url is not a string", rfl⟩
    | jbool b => exact ⟨"flake url is not a string", rfl⟩
    | jnum n => exact ⟨"flake url is not a string", rfl⟩
    | jarr xs => exact ⟨"flake url is not a string", rfl⟩
    | jobj fs => exact ⟨"flake url is not a string", rfl⟩
  rcases hurl with ⟨e, he⟩
  unfold NixDarwinRunner.parse_flake
  simp only [reCaptures]
  cases hfrag : (parseUri fv.data).fragment with
  | some a => exact ⟨e, by simp [hfrag, hmd, he]⟩
  | none =>
    cases hh : w.hostname with
    | error err => exact ⟨"Failed to get local hostname: " ++ err, by simp [hfrag, hh]⟩
    | ok hname => exact ⟨e, by simp [hfrag, hh, hmd, he]⟩

/-- **C4** (counterexample): a metadata invocation that exits with status 1
but emits JSON-parseable stdout containing a valid `url` does *not* fail
resolution: `handle_output_result` only checks that the exit code is readable,
so `parse_flake` succeeds and the locked reference is produced. -/
def wMetaExit1 : World :=
  { wOk with
    metadataOutcome :=
      Except.ok (MOut.mk (some 1) (some (JVal.jobj [("url", JVal.jstr "git+file:///r")]))) }

theorem c4_counterexample :
    wMetaExit1.metadataOutcome =
      Except.ok (MOut.mk (some 1) (some (JVal.jobj [("url", JVal.jstr "git+file:///r")]))) ∧
    NixDarwinRunner.parse_flake wMetaExit1 (some "p#foo") =
      (.ok (some "git+file:///r", "darwinConfigurations.foo"), [Ev.metadataQuery]) :=
  ⟨rfl, rfl⟩

/-- **C4** (amended): a metadata response whose `url` is missing, empty or not
string-typed always fails resolution, and the failed construction means the
run issues no build call; a metadata *invocation* failure, however, is
detected only as a spawn error, an unreadable exit status, or stdout that is
not valid JSON — the exit code's value itself is never consulted. -/
theorem c4_resolution_failure (w : World) (args : Args) (fv : String) :
    (∀ (cd : Int) (md : JVal), args.flake = some fv →
      w.metadataOutcome = .ok ⟨some cd, some md⟩ →
      (∀ s, md.get "url" = .jstr s → s = "") →
      (∃ e, (NixDarwinRunner.parse_flake w (some fv)).1 = .error e) ∧
      Ev.buildFlake ∉ (NixDarwinRunner.newRun w args).2 ∧
      Ev.buildLegacy ∉ (NixDarwinRunner.newRun w args).2) ∧
    (∀ o : MOut, args.flake = some fv → w.metadataOutcome = .ok o →
      (o.stdoutJson = none ∨ o.code = none) →
      (∃ e, (NixDarwinRunner.parse_flake w (some fv)).1 = .error e) ∧
      Ev.buildFlake ∉ (NixDarwinRunner.newRun w args).2 ∧
      Ev.buildLegacy ∉ (NixDarwinRunner.newRun w args).2) := by
  constructor
  · intro cd md hf hmo hbad
    have herr := parse_flake_err_of_bad_url w fv cd md hmo hbad
    have hnb := newRun_no_build_of_parse_err w args fv hf herr
    exact ⟨herr, hnb.1, hnb.2⟩
  · intro o hf hmo hio
    have herr := parse_flake_err_of_md_err w fv (get_flake_metadata_err w o hmo hio)
    have hnb := newRun_no_build_of_parse_err w args fv hf herr
    exact ⟨herr, hnb.1, hnb.2⟩

/-- Witness for `c4_resolution_failure`: metadata whose `url` field is absent
(indexing yields `Null`). -/
theorem c4_resolution_failure_witness :
    (∃ e, (NixDarwinRunner.parse_flake
        { wOk with metadataOutcome := .ok ⟨some 0, some (JVal.jobj [])⟩ }
        (some "p#foo")).1 = .error e) ∧
    Ev.buildFlake ∉
      (NixDarwinRunner.newRun
        { wOk with metadataOutcome := .ok ⟨some 0, some (JVal.jobj [])⟩ }
        { action := some .switch, rollback := false, list_generations := false,
          profile_name := none, flake := some "p#foo" }).2 ∧
    Ev.buildLegacy ∉
      (NixDarwinRunner.newRun
        { wOk with metadataOutcome := .ok ⟨some 0, some (JVal.jobj [])⟩ }
        { action := some .switch, rollback := false, list_generations := false,
          profile_name := none, flake := some "p#foo" }).2 :=
  (c4_resolution_failure
      { wOk with metadataOutcome := .ok ⟨some 0, some (JVal.jobj [])⟩ }
      { action := some .switch, rollback := false, list_generations := false,
        profile_name := none, flake := some "p#foo" } "p#foo").1
    0 (JVal.jobj []) rfl rfl (fun s h => by cases h)

/-! ## C7 — fragment vs host-name attribute resolution -/

theorem notHash_eq_true {c : Char} : notHash c = true ↔ c ≠ '#' := by
  simp [notHash]

theorem parseUri_fragment (s : List Char) :
    (parseUri s).fragment = (splitOn1 notHash s).2 := rfl

/-- The fragment of `p#foo` is `foo` when `p` is hash-free. -/
theorem parseUri_fragment_append (p foo : List Char) (hp : ∀ c ∈ p, c ≠ '#') :
    (parseUri (p ++ '#' :: foo)).fragment = some foo := by
  rw [parseUri_fragment,
    splitOn1_append notHash p '#' foo
      (fun c hc => notHash_eq_true.mpr (hp c hc)) (by decide)]

/-- A hash-free reference has no fragment. -/
theorem parseUri_fragment_none (s : List Char) (h : ∀ c ∈ s, c ≠ '#') :
    (parseUri s).fragment = none := by
  rw [parseUri_fragment, splitOn1_all notHash s (fun c hc => notHash_eq_true.mpr (h c hc))]

/-- With an explicit fragment the whole resolution emits exactly the metadata
query — the host name is never queried, whatever the outcome. -/
theorem parse_flake_trace_of_fragment (w : World) (s : String) (a : List Char)
    (hfrag : (parseUri s.data).fragment = some a) :
    (NixDarwinRunner.parse_flake w (some s)).2 = [Ev.metadataQuery] := by
  unfold NixDarwinRunner.parse_flake
  simp only [reCaptures, hfrag]
  rcases hg : get_flake_metadata w with ⟨res, tr⟩
  have htr : tr = [Ev.metadataQuery] := by
    have h2 := get_flake_metadata_trace w
    rw [hg] at h2
    exact h2
  subst htr
  cases res with
  | error e => simp [hg]
  | ok md =>
    cases hu : extractUrl md with
    | error e2 => simp [hg, hu]
    | ok url =>
      cases hap : applySubmodules md url with
      | error e2 => simp [hg, hu, hap]
      | ok fl => simp [hg, hu, hap]

/-- With an explicit fragment `a`, a successful resolution's attribute path is
exactly `darwinConfigurations.<a>`. -/
theorem parse_flake_attr_of_fragment (w : World) (s : String) (a : List Char)
    (hfrag : (parseUri s.data).fragment = some a) :
    ∀ fl attr, (NixDarwinRunner.parse_flake w (some s)).1 = .ok (fl, attr) →
      attr = "darwinConfigurations." ++ String.mk a := by
  intro fl attr h
  unfold NixDarwinRunner.parse_flake at h
  simp only [reCaptures, hfrag] at h
  rcases hg : get_flake_metadata w with ⟨res, tr⟩
  rw [hg] at h
  cases res with
  | error e => simp at h
  | ok md =>
    cases hu : extractUrl md with
    | error e2 => simp [hu] at h
    | ok url =>
      cases hap : applySubmodules md url with
      | error e2 => simp [hu, hap] at h
      | ok fl2 =>
        simp [hu, hap] at h
        exact h.2.symm

/-- Without a fragment, a successful resolution's attribute path is
`darwinConfigurations.<hostname>`. -/
theorem parse_flake_attr_of_hostname (w : World) (s : String) (hname : String)
    (hfrag : (parseUri s.data).fragment = none) (hh : w.hostname = .ok hname) :
    ∀ fl attr, (NixDarwinRunner.parse_flake w (some s)).1 = .ok (fl, attr) →
      attr = "darwinConfigurations." ++ hname := by
  intro fl attr h
  unfold NixDarwinRunner.parse_flake at h
  simp only [reCaptures, hfrag, hh] at h
  rcases hg : get_flake_metadata w with ⟨res, tr⟩
  rw [hg] at h
  cases res with
  | error e => simp at h
  | ok md =>
    cases hu : extractUrl md with
    | error e2 => simp [hu] at h
    | ok url =>
      cases hap : applySubmodules md url with
      | error e2 => simp [hu, hap] at h
      | ok fl2 =>
        simp [hu, hap] at h
        exact h.2.symm

/-- **C7** (confirmed): with an explicit fragment `#foo` the resolved
attribute path is exactly `darwinConfigurations.foo` and the host name is
never queried (in `NixDarwinRunner::parse_flake` and, for non-empty fragments,
in `main`'s attribute computation); without a fragment, a host-name lookup
returning `bar` resolves the attribute path to `darwinConfigurations.bar`. -/
theorem c7_attribute_resolution :
    (∀ (w : World) (p foo : String), (∀ c ∈ p.data, c ≠ '#') →
      Ev.hostnameQuery ∉ (NixDarwinRunner.parse_flake w (some (p ++ "#" ++ foo))).2 ∧
      (∀ fl attr,
        (NixDarwinRunner.parse_flake w (some (p ++ "#" ++ foo))).1 = .ok (fl, attr) →
        attr = "darwinConfigurations." ++ foo)) ∧
    (∀ (w : World) (r : String), (∀ c ∈ r.data, c ≠ '#') → w.hostname = .ok "bar" →
      ∀ fl attr, (NixDarwinRunner.parse_flake w (some r)).1 = .ok (fl, attr) →
        attr = "darwinConfigurations.bar") ∧
    (∀ (w : World) (p foo : String), (∀ c ∈ p.data, c ≠ '#') → foo ≠ "" →
      mainFlakeAttr w (p ++ "#" ++ foo) = (.ok ("darwinConfigurations." ++ foo), [])) ∧
    (∀ (w : World) (r : String), (∀ c ∈ r.data, c ≠ '#') → w.hostname = .ok "bar" →
      mainFlakeAttr w r = (.ok "darwinConfigurations.bar", [Ev.hostnameQuery])) := by
  have hdata : ∀ p foo : String, (p ++ "#" ++ foo).data = p.data ++ '#' :: foo.data := by
    intro p foo
    rw [String.data_append, String.data_append, List.append_assoc]
    rfl
  refine ⟨?_, ?_, ?_, ?_⟩
  · intro w p foo hp
    have hfrag : (parseUri ((p ++ "#" ++ foo) : String).data).fragment = some foo.data := by
      rw [hdata]
      exact parseUri_fragment_append p.data foo.data hp
    constructor
    · rw [parse_flake_trace_of_fragment w _ foo.data hfrag]
      simp
    · intro fl attr h
      exact parse_flake_attr_of_fragment w _ foo.data hfrag fl attr h
  · intro w r hr hh fl attr h
    exact parse_flake_attr_of_hostname w r "bar"
      (parseUri_fragment_none r.data hr) hh fl attr h
  · intro w p foo hp hfoo
    have hfrag : (parseUri ((p ++ "#" ++ foo) : String).data).fragment = some foo.data := by
      rw [hdata]
      exact parseUri_fragment_append p.data foo.data hp
    unfold mainFlakeAttr
    simp only [hfrag]
    have hie : (String.mk foo.data).isEmpty = false := by
      show foo.isEmpty = false
      cases hfe : foo.isEmpty
      · rfl
      · exact absurd ((String.isEmpty_iff foo).mp hfe) hfoo
    rw [hie]
    simp
  · intro w r hr hh
    unfold mainFlakeAttr
    simp only [parseUri_fragment_none r.data hr, hh]
    rfl

/-- Witness for `c7_attribute_resolution` at `github:o/r#host` and a host-name
lookup returning `bar`. -/
theorem c7_attribute_resolution_witness :
    (Ev.hostnameQuery ∉
        (NixDarwinRunner.parse_flake wOk (some ("github:o/r" ++ "#" ++ "host"))).2 ∧
      (∀ fl attr,
        (NixDarwinRunner.parse_flake wOk (some ("github:o/r" ++ "#" ++ "host"))).1 =
          .ok (fl, attr) →
        attr = "darwinConfigurations." ++ "host")) ∧
    mainFlakeAttr wOk ("github:o/r" ++ "#" ++ "host") =
      (.ok ("darwinConfigurations." ++ "host"), []) ∧
    mainFlakeAttr { wOk with hostname := .ok "bar" } "github:o/r" =
      (.ok "darwinConfigurations.bar", [Ev.hostnameQuery]) :=
  ⟨c7_attribute_resolution.1 wOk "github:o/r" "host" (by decide),
   c7_attribute_resolution.2.2.1 wOk "github:o/r" "host" (by decide) (by decide),
   c7_attribute_resolution.2.2.2 { wOk with hostname := .ok "bar" } "github:o/r"
     (by decide) rfl⟩

/-! ## C6 — the Switch step sequence -/

/-- The calls the Switch invariant counts: build, profile-set, and the two
activation phases (the diff-reporting `ls`/`nvd` helper calls and the
temporary-directory bookkeeping are not among them). -/
inductive CoreEv where
  | build
  | profileSet
  | activateUser
  | activateSystem
deriving Repr, DecidableEq

/-- Project a trace event onto the counted calls. -/
def coreOf : Ev → Option CoreEv
  | .buildFlake => some .build
  | .buildLegacy => some .build
  | .profileSet _ => some .profileSet
  | .activateUser => some .activateUser
  | .activateSystem _ => some .activateSystem
  | _ => none

/-- A successful build step contributes exactly one build call. -/
theorem build_configuration_ok_trace (w : World) (r : Runner) (o sc : String)
    (btr : List Ev) (h : Runner.build_configuration w r o = (.ok sc, btr)) :
    btr.filterMap coreOf = [CoreEv.build] := by
  unfold Runner.build_configuration at h
  cases hf : r.flake with
  | some fl =>
    simp only [hf] at h
    unfold nix_flake_build at h
    cases hp : w.pipelineJoin with
    | error e => rw [hp] at h; simp at h
    | ok c1 =>
      rw [hp] at h
      cases hl : w.lsJoin with
      | error e => rw [hl] at h; simp at h
      | ok c2 =>
        rw [hl] at h
        cases hn : w.nvdJoin with
        | error e => rw [hn] at h; simp at h
        | ok c3 =>
          rw [hn] at h
          simp only [Prod.mk.injEq] at h
          rw [← h.2]
          rfl
  | none =>
    simp only [hf] at h
    unfold nix_build at h
    cases hb : w.nixBuildOutput with
    | error e => rw [hb] at h; simp at h
    | ok o2 =>
      rw [hb] at h
      cases o2 with
      | mk code stdout =>
        cases code with
        | none => simp at h
        | some c =>
          simp only [Prod.mk.injEq] at h
          rw [← h.2]
          rfl

/-- A successful profile switch contributes exactly one profile-set call. -/
theorem switch_profile_ok_trace (w : World) (r : Runner) (sptr : List Ev)
    (h : Runner.switch_profile w r = (.ok (), sptr)) :
    sptr.filterMap coreOf = [CoreEv.profileSet] := by
  unfold Runner.switch_profile at h
  cases hroot : w.isRoot with
  | error e => simp [hroot] at h
  | ok b =>
    simp only [hroot] at h
    cases hro : is_read_only w.fsReadOnly r.profile with
    | error e => simp [hro] at h
    | ok ro =>
      simp only [hro] at h
      cases hbro : (!b && ro)
      · simp only [hbro, Bool.false_eq_true, if_false] at h
        cases hst : w.setProfileStatus with
        | error e => simp [hst] at h
        | ok c =>
          simp only [hst] at h
          by_cases hc : (c == 0) = true
          · rw [if_pos hc] at h
            injection h with h1 h2
            rw [← h2]
            rfl
          · rw [if_neg hc] at h
            injection h with h1 h2
            exact Except.noConfusion h1
      · simp only [hbro, if_true] at h
        cases hst : w.setProfileSudoStatus with
        | error e => simp [hst] at h
        | ok c =>
          simp only [hst] at h
          by_cases hc : (c == 0) = true
          · rw [if_pos hc] at h
            injection h with h1 h2
            rw [← h2]
            rfl
          · rw [if_neg hc] at h
            injection h with h1 h2
            exact Except.noConfusion h1

/-- A successful activation contributes the user-level call followed by the
system-level call. -/
theorem activate_profile_ok_trace (w : World) (aptr : List Ev)
    (h : activate_profile w = (.ok (), aptr)) :
    aptr.filterMap coreOf = [CoreEv.activateUser, CoreEv.activateSystem] := by
  unfold activate_profile at h
  cases hu : w.activateUserStatus with
  | error e => simp [hu] at h
  | ok c =>
    simp only [hu] at h
    by_cases hc : (c == 0) = true
    · rw [if_pos hc] at h
      cases hroot : w.isRoot with
      | error e => simp [hroot] at h
      | ok b =>
        simp only [hroot] at h
        cases b
        · simp only [Bool.not_false, if_true] at h
          cases hst : w.activateSudoStatus with
          | error e => simp [hst] at h
          | ok c2 =>
            simp only [hst] at h
            by_cases hc2 : (c2 == 0) = true
            · rw [if_pos hc2] at h
              injection h with h1 h2
              rw [← h2]
              rfl
            · rw [if_neg hc2] at h
              injection h with h1 h2
              exact Except.noConfusion h1
        · simp only [Bool.not_true, Bool.false_eq_true, if_false] at h
          cases hst : w.activateStatus with
          | error e => simp [hst] at h
          | ok c2 =>
            simp only [hst] at h
            by_cases hc2 : (c2 == 0) = true
            · rw [if_pos hc2] at h
              injection h with h1 h2
              rw [← h2]
              rfl
            · rw [if_neg hc2] at h
              injection h with h1 h2
              exact Except.noConfusion h1
    · rw [if_neg hc] at h
      injection h with h1 h2
      exact Except.noConfusion h1

/-- **C6** (confirmed): every successful Switch run issues exactly one build
call, then exactly one profile-set call, then the user-level activation, then
the system-level activation — nothing else among the counted calls, in that
order. -/
theorem c6_switch_sequence (w : World) (r : Runner) (tr : List Ev)
    (ha : r.action = some .switch)
    (h : Runner.run w r = (.ok (), tr)) :
    tr.filterMap coreOf =
      [CoreEv.build, CoreEv.profileSet, CoreEv.activateUser, CoreEv.activateSystem] := by
  unfold Runner.run at h
  cases htd : w.tempdir with
  | error e => simp [htd] at h
  | ok dir =>
    simp only [htd] at h
    rcases hb : Runner.runBody w r (dir ++ "/result") with ⟨res, trb⟩
    simp only [hb] at h
    simp only [Prod.mk.injEq] at h
    obtain ⟨h1, h2⟩ := h
    subst h2
    unfold Runner.runBody at hb
    simp only [select_action, ha, toNixAction] at hb
    rcases hbc : Runner.build_configuration w r (dir ++ "/result") with ⟨bres, btr⟩
    simp only [hbc] at hb
    cases bres with
    | error e =>
      simp only [Prod.mk.injEq] at hb
      rw [← hb.1] at h1
      exact absurd h1 (by simp)
    | ok sc =>
      rcases hsp : Runner.switch_profile w r with ⟨spres, sptr⟩
      simp only [hsp] at hb
      cases spres with
      | error e =>
        simp only [Prod.mk.injEq] at hb
        rw [← hb.1] at h1
        exact absurd h1 (by simp)
      | ok u =>
        rcases hap : activate_profile w with ⟨apres, aptr⟩
        simp only [hap] at hb
        simp only [Prod.mk.injEq] at hb
        obtain ⟨hb1, hb2⟩ := hb
        rw [← hb1] at h1
        subst h1
        subst hb2
        rw [List.filterMap_cons]
        simp only [coreOf]
        rw [List.filterMap_append, List.filterMap_append, List.filterMap_append]
        rw [build_configuration_ok_trace w r (dir ++ "/result") sc btr hbc,
          switch_profile_ok_trace w r sptr hsp,
          activate_profile_ok_trace w aptr hap]
        rfl

/-- Witness for `c6_switch_sequence`: the all-ok world's Switch run. -/
theorem c6_switch_sequence_witness :
    (Runner.run wOk rSwitchFlake).2.filterMap coreOf =
      [CoreEv.build, CoreEv.profileSet, CoreEv.activateUser, CoreEv.activateSystem] :=
  c6_switch_sequence wOk rSwitchFlake (Runner.run wOk rSwitchFlake).2 rfl rfl

/-! ## C10 — temporary build-directory lifecycle -/

/-- The temporary-directory bookkeeping events. -/
def Ev.isTempdir : Ev → Bool
  | .tempdirCreate => true
  | .tempdirRemove => true
  | _ => false

theorem no_tempdir_of_all (tr : List Ev)
    (h : (tr.all fun e => ! e.isTempdir) = true) :
    ∀ e ∈ tr, e.isTempdir = false := by
  intro e he
  have h2 := List.all_eq_true.mp h e he
  simpa using h2

theorem nix_flake_build_no_tempdir (w : World) (o : String) :
    ∀ e ∈ (nix_flake_build w o).2, e.isTempdir = false := by
  unfold nix_flake_build
  rcases w.pipelineJoin with e1 | c1
  · exact no_tempdir_of_all _ rfl
  · rcases w.lsJoin with e2 | c2
    · exact no_tempdir_of_all _ rfl
    · rcases w.nvdJoin with e3 | c3 <;> exact no_tempdir_of_all _ rfl

theorem nix_build_no_tempdir (w : World) :
    ∀ e ∈ (nix_build w).2, e.isTempdir = false := by
  unfold nix_build
  rcases w.nixBuildOutput with e1 | ⟨code, stdout⟩
  · exact no_tempdir_of_all _ rfl
  · rcases code with _ | c <;> exact no_tempdir_of_all _ rfl

theorem build_configuration_no_tempdir (w : World) (r : Runner) (o : String) :
    ∀ e ∈ (Runner.build_configuration w r o).2, e.isTempdir = false := by
  unfold Runner.build_configuration
  rcases r.flake with _ | fl
  · exact nix_build_no_tempdir w
  · exact nix_flake_build_no_tempdir w o

theorem switch_profile_no_tempdir (w : World) (r : Runner) :
    ∀ e ∈ (Runner.switch_profile w r).2, e.isTempdir = false := by
  unfold Runner.switch_profile
  rcases w.isRoot with e1 | b
  · exact no_tempdir_of_all _ rfl
  · rcases is_read_only w.fsReadOnly r.profile with e2 | ro
    · exact no_tempdir_of_all _ rfl
    · cases hbro : (!b && ro) <;>
        simp only [hbro, Bool.false_eq_true, if_false, if_true]
      · rcases w.setProfileStatus with e3 | c
        · exact no_tempdir_of_all _ rfl
        · intro e he
          rw [apply_ite Prod.snd, ite_self] at he
          simp only [List.mem_singleton] at he
          subst he
          rfl
      · rcases w.setProfileSudoStatus with e3 | c
        · exact no_tempdir_of_all _ rfl
        · intro e he
          rw [apply_ite Prod.snd, ite_self] at he
          simp only [List.mem_singleton] at he
          subst he
          rfl

theorem run_profile_no_tempdir (w : World) (r : Runner) :
    ∀ e ∈ (Runner.run_profile w r).2, e.isTempdir = false := by
  unfold Runner.run_profile
  rcases w.isRoot with e1 | b
  · exact no_tempdir_of_all _ rfl
  · rcases is_read_only w.fsReadOnly r.profile with e2 | ro
    · exact no_tempdir_of_all _ rfl
    · cases hbro : (!b && ro) <;>
        simp only [hbro, Bool.false_eq_true, if_false, if_true]
      · rcases w.profileCmdStatus with e3 | c
        · exact no_tempdir_of_all _ rfl
        · intro e he
          rw [apply_ite Prod.snd, ite_self] at he
          simp only [List.mem_singleton] at he
          subst he
          rfl
      · rcases w.profileCmdSudoStatus with e3 | c
        · exact no_tempdir_of_all _ rfl
        · intro e he
          rw [apply_ite Prod.snd, ite_self] at he
          simp only [List.mem_singleton] at he
          subst he
          rfl

theorem activate_profile_no_tempdir (w : World) :
    ∀ e ∈ (activate_profile w).2, e.isTempdir = false := by
  unfold activate_profile
  rcases w.activateUserStatus with e1 | c
  · exact no_tempdir_of_all _ rfl
  · dsimp only
    by_cases hc : (c == 0) = true
    · rw [if_pos hc]
      rcases w.isRoot with e2 | b
      · exact no_tempdir_of_all _ rfl
      · cases b <;> simp only [Bool.not_false, Bool.not_true, Bool.false_eq_true,
          if_false, if_true]
        · rcases w.activateSudoStatus with e3 | c2
          · exact no_tempdir_of_all _ rfl
          · intro e he
            rw [apply_ite Prod.snd, ite_self] at he
            simp only [List.mem_cons, List.not_mem_nil, or_false] at he
            rcases he with rfl | rfl <;> rfl
        · rcases w.activateStatus with e3 | c2
          · exact no_tempdir_of_all _ rfl
          · intro e he
            rw [apply_ite Prod.snd, ite_self] at he
            simp only [List.mem_cons, List.not_mem_nil, or_false] at he
            rcases he with rfl | rfl <;> rfl
    · rw [if_neg hc]
      exact no_tempdir_of_all _ rfl

/-- Every event the action dispatch emits is an external call of the chosen
action — never the temporary-directory bookkeeping events, which only
`Runnable::run`'s wrapper adds. -/
theorem runBody_no_tempdir (w : World) (r : Runner) (o : String) :
    ∀ e ∈ (Runner.runBody w r o).2, e.isTempdir = false := by
  unfold Runner.runBody
  rcases select_action r with e0 | a
  · exact no_tempdir_of_all _ rfl
  · cases a
    case rollback =>
      rcases hrp : Runner.run_profile w r with ⟨rres, rtr⟩
      have hr := run_profile_no_tempdir w r
      rw [hrp] at hr
      cases rres with
      | error e => exact hr
      | ok u =>
        rcases w.systemConfigFile r.profile with e2 | sc
        · intro e he
          simp only [List.mem_append] at he
          rcases he with he | he
          · exact hr e he
          · simp only [List.mem_singleton] at he
            subst he
            rfl
        · intro e he
          simp only [List.mem_append] at he
          rcases he with (he | he) | he
          · exact hr e he
          · simp only [List.mem_singleton] at he
            subst he
            rfl
          · exact activate_profile_no_tempdir w e he
    case listGenerations => exact run_profile_no_tempdir w r
    case edit =>
      rcases w.findFileResult with e1 | cfg
      · exact no_tempdir_of_all _ rfl
      · rcases r.flake with _ | fl
        · exact no_tempdir_of_all _ rfl
        · rcases handle_output_result w.nixEditOutcome with e2 | o2
          · exact no_tempdir_of_all _ rfl
          · rcases o2.code with _ | c <;> exact no_tempdir_of_all _ rfl
    case activate =>
      rcases w.realPath with e1 | sc
      · exact no_tempdir_of_all _ rfl
      · intro e he
        rcases List.mem_cons.mp he with rfl | he
        · rfl
        · exact activate_profile_no_tempdir w e he
    case build =>
      rcases hbc : Runner.build_configuration w r o with ⟨bres, btr⟩
      have hb := build_configuration_no_tempdir w r o
      rw [hbc] at hb
      cases bres with
      | error e => exact hb
      | ok sc => exact hb
    case check =>
      rcases hbc : Runner.build_configuration w r o with ⟨bres, btr⟩
      have hb := build_configuration_no_tempdir w r o
      rw [hbc] at hb
      cases bres with
      | error e => exact hb
      | ok sc =>
        rcases w.activateUserStatus with e2 | c
        · intro e he
          simp only [List.mem_append] at he
          rcases he with he | he
          · exact hb e he
          · simp only [List.mem_singleton] at he
            subst he
            rfl
        · dsimp only
          by_cases hcz : (c == 0) = true
          · rw [if_pos hcz]
            intro e he
            simp only [List.mem_append] at he
            rcases he with he | he
            · exact hb e he
            · simp only [List.mem_singleton] at he
              subst he
              rfl
          · rw [if_neg hcz]
            intro e he
            simp only [List.mem_append] at he
            rcases he with he | he
            · exact hb e he
            · simp only [List.mem_singleton] at he
              subst he
              rfl
    case switch =>
      rcases hbc : Runner.build_configuration w r o with ⟨bres, btr⟩
      have hb := build_configuration_no_tempdir w r o
      rw [hbc] at hb
      cases bres with
      | error e => exact hb
      | ok sc =>
        rcases hsp : Runner.switch_profile w r with ⟨spres, sptr⟩
        have hs := switch_profile_no_tempdir w r
        rw [hsp] at hs
        cases spres with
        | error e =>
          intro e he
          simp only [List.mem_append] at he
          rcases he with he | he
          · exact hb e he
          · exact hs e he
        | ok u =>
          intro e he
          simp only [List.mem_append] at he
          rcases he with (he | he) | he
          · exact hb e he
          · exact hs e he
          · exact activate_profile_no_tempdir w e he
    case changelog =>
      rcases w.changelogRead with e1 | c <;> exact no_tempdir_of_all _ rfl
    case completions => exact no_tempdir_of_all _ rfl

/-- **C10** (confirmed): whenever the temporary directory is created, every
run — for every action and every outcome, success or error — begins its
external-call trace with the directory's creation and ends it with the
directory's removal, each occurring exactly once. -/
theorem c10_tempdir_lifecycle (w : World) (r : Runner) (d : String)
    (htd : w.tempdir = .ok d) :
    (Runner.run w r).2.head? = some Ev.tempdirCreate ∧
    (Runner.run w r).2.getLast? = some Ev.tempdirRemove ∧
    (Runner.run w r).2.count Ev.tempdirCreate = 1 ∧
    (Runner.run w r).2.count Ev.tempdirRemove = 1 := by
  unfold Runner.run
  simp only [htd]
  rcases hb : Runner.runBody w r (d ++ "/result") with ⟨res, trb⟩
  have hmem := runBody_no_tempdir w r (d ++ "/result")
  rw [hb] at hmem
  have hc : Ev.tempdirCreate ∉ trb := by
    intro hin
    have := hmem _ hin
    simp [Ev.isTempdir] at this
  have hr : Ev.tempdirRemove ∉ trb := by
    intro hin
    have := hmem _ hin
    simp [Ev.isTempdir] at this
  refine ⟨rfl, ?_, ?_, ?_⟩
  · show (Ev.tempdirCreate :: (trb ++ [Ev.tempdirRemove])).getLast? = some Ev.tempdirRemove
    rw [show Ev.tempdirCreate :: (trb ++ [Ev.tempdirRemove]) =
      (Ev.tempdirCreate :: trb) ++ [Ev.tempdirRemove] from rfl]
    exact List.getLast?_concat _
  · show (Ev.tempdirCreate :: (trb ++ [Ev.tempdirRemove])).count Ev.tempdirCreate = 1
    rw [List.count_cons_self, List.count_append, List.count_eq_zero.mpr hc]
    simp
  · show (Ev.tempdirCreate :: (trb ++ [Ev.tempdirRemove])).count Ev.tempdirRemove = 1
    rw [List.count_cons_of_ne (by simp), List.count_append,
      List.count_eq_zero.mpr hr]
    simp

/-- Witness for `c10_tempdir_lifecycle` on the all-ok world's Switch run. -/
theorem c10_tempdir_lifecycle_witness :
    (Runner.run wOk rSwitchFlake).2.head? = some Ev.tempdirCreate ∧
    (Runner.run wOk rSwitchFlake).2.getLast? = some Ev.tempdirRemove ∧
    (Runner.run wOk rSwitchFlake).2.count Ev.tempdirCreate = 1 ∧
    (Runner.run wOk rSwitchFlake).2.count Ev.tempdirRemove = 1 :=
  c10_tempdir_lifecycle wOk rSwitchFlake "/tmp/nix-darwin-x" rfl

/-! ## C9 — totality and idempotent decomposition

The reconstruction `scheme+authority+path+query` (capture groups 1, 3, 5, 6)
contains no `#`, its only `?` is the query delimiter, and the scheme/authority
groups re-match exactly where they did, so re-parsing recovers the same four
components. -/

/-- The scheme part as the source concatenates it (group 1, with `:`). -/
def schemeRecon : Option (List Char) → List Char
  | some s => s ++ [':']
  | none => []

/-- The authority part as the source concatenates it (group 3, with `//`). -/
def authRecon : Option (List Char) → List Char
  | some a => '/' :: '/' :: a
  | none => []

/-- The query part as the source concatenates it (group 6, with `?`). -/
def queryRecon : Option (List Char) → List Char
  | some q => '?' :: q
  | none => []

/-- Scheme, authority and path concatenated. -/
def coreRecon (sch auth : Option (List Char)) (path : List Char) : List Char :=
  schemeRecon sch ++ authRecon auth ++ path

theorem reconUri_eq (p : UriParts) :
    reconUri p = coreRecon p.scheme p.authority p.path ++ queryRecon p.query := rfl

theorem splitOn1_fst (p : Char → Bool) (l : List Char) :
    (splitOn1 p l).1 = l.takeWhile p := by
  unfold splitOn1
  cases l.dropWhile p <;> rfl

theorem splitOn1_snd_some (p : Char → Bool) (l t : List Char)
    (h : (splitOn1 p l).2 = some t) :
    ∃ x, l.dropWhile p = x :: t ∧ p x = false := by
  unfold splitOn1 at h
  cases hd : l.dropWhile p with
  | nil => rw [hd] at h; cases h
  | cons x xs =>
    rw [hd] at h
    simp only [Option.some.injEq] at h
    subst h
    exact ⟨x, rfl, dropWhile_head_false p l x xs hd⟩

theorem mem_takeWhile_mem {α : Type} (p : α → Bool) :
    ∀ l : List α, ∀ c ∈ l.takeWhile p, c ∈ l := by
  intro l
  induction l with
  | nil => intro c hc; cases hc
  | cons x xs ih =>
    intro c hc
    by_cases hx : p x = true
    · rw [List.takeWhile_cons, if_pos hx] at hc
      rcases List.mem_cons.mp hc with rfl | hc
      · exact List.mem_cons_self c xs
      · exact List.mem_cons_of_mem x (ih c hc)
    · rw [List.takeWhile_cons, if_neg hx] at hc
      cases hc

/-- Inversion of a successful scheme match. -/
theorem pss_some_inv (s sc rest : List Char)
    (h : parseSchemeSplit s = (some sc, rest)) :
    s = sc ++ ':' :: rest ∧ (∀ c ∈ sc, schemeOk c = true) ∧ sc ≠ [] := by
  unfold parseSchemeSplit at h
  cases hd : s.dropWhile schemeOk with
  | nil => rw [hd] at h; cases h
  | cons c t =>
    simp only [hd] at h
    by_cases hc : (c == ':' && !(s.takeWhile schemeOk).isEmpty) = true
    · rw [if_pos hc] at h
      injection h with h1 h2
      injection h1 with h1
      subst h1
      subst h2
      rcases Bool.and_eq_true_iff.mp hc with ⟨hc1, hc2⟩
      have hcol : c = ':' := eq_of_beq hc1
      subst hcol
      refine ⟨?_, mem_takeWhile_pred schemeOk s, ?_⟩
      · have hsplit : s = s.takeWhile schemeOk ++ s.dropWhile schemeOk :=
          (List.takeWhile_append_dropWhile (p := schemeOk) (l := s)).symm
        rw [hd] at hsplit
        exact hsplit
      · intro hnil
        rw [hnil] at hc2
        simp at hc2
    · rw [if_neg hc] at h
      cases h

/-- A failed scheme match leaves the input unconsumed. -/
theorem pss_none_inv (s rest : List Char)
    (h : parseSchemeSplit s = (none, rest)) : rest = s := by
  unfold parseSchemeSplit at h
  cases hd : s.dropWhile schemeOk with
  | nil =>
    rw [hd] at h
    injection h with h1 h2
    exact h2.symm
  | cons c t =>
    simp only [hd] at h
    by_cases hc : (c == ':' && !(s.takeWhile schemeOk).isEmpty) = true
    · rw [if_pos hc] at h; cases h
    · rw [if_neg hc] at h
      injection h with h1 h2
      exact h2.symm

/-- Inversion of a successful authority match. -/
theorem pas_some_inv (s a rest : List Char)
    (h : parseAuthoritySplit s = (some a, rest)) :
    s = '/' :: '/' :: (a ++ rest) ∧ (∀ c ∈ a, authOk c = true) ∧
    (rest = [] ∨ ∃ x xs, rest = x :: xs ∧ authOk x = false) := by
  unfold parseAuthoritySplit at h
  cases s with
  | nil => cases h
  | cons c1 s1 =>
    cases s1 with
    | nil => cases h
    | cons c2 t =>
      dsimp only at h
      by_cases hc : (c1 == '/' && c2 == '/') = true
      · rw [if_pos hc] at h
        injection h with h1 h2
        injection h1 with h1
        subst h1
        subst h2
        rcases Bool.and_eq_true_iff.mp hc with ⟨hc1, hc2⟩
        have e1 : c1 = '/' := eq_of_beq hc1
        have e2 : c2 = '/' := eq_of_beq hc2
        subst e1
        subst e2
        refine ⟨?_, mem_takeWhile_pred authOk t, ?_⟩
        · rw [List.takeWhile_append_dropWhile]
        · cases hd : t.dropWhile authOk with
          | nil => exact Or.inl rfl
          | cons x xs =>
            exact Or.inr ⟨x, xs, rfl, dropWhile_head_false authOk t x xs hd⟩
      · rw [if_neg hc] at h
        cases h

/-- A failed authority match leaves the input unconsumed, and the input does
not start with `//`. -/
theorem pas_none_inv (s rest : List Char)
    (h : parseAuthoritySplit s = (none, rest)) :
    rest = s ∧ ∀ t, s ≠ '/' :: '/' :: t := by
  unfold parseAuthoritySplit at h
  cases s with
  | nil =>
    injection h with h1 h2
    exact ⟨h2.symm, fun t ht => by cases ht⟩
  | cons c1 s1 =>
    cases s1 with
    | nil =>
      injection h with h1 h2
      exact ⟨h2.symm, fun t ht => by cases ht⟩
    | cons c2 t =>
      dsimp only at h
      by_cases hc : (c1 == '/' && c2 == '/') = true
      · rw [if_pos hc] at h; cases h
      · rw [if_neg hc] at h
        injection h with h1 h2
        refine ⟨h2.symm, fun t2 ht => ?_⟩
        injection ht with e1 ht
        injection ht with e2 ht
        subst e1
        subst e2
        simp at hc

/-- Re-matching the scheme at its reconstruction. -/
theorem pss_build (sc rest : List Char) (hsc : ∀ c ∈ sc, schemeOk c = true)
    (hne : sc ≠ []) :
    parseSchemeSplit (sc ++ ':' :: rest) = (some sc, rest) := by
  have hstop := takeWhile_append_stop schemeOk sc ':' rest hsc (by decide)
  unfold parseSchemeSplit
  rw [hstop.2, hstop.1]
  have hie : sc.isEmpty = false := by
    cases sc
    · exact absurd rfl hne
    · rfl
  dsimp only
  rw [if_pos (by simp [hie])]

/-- A reconstruction starting with `/` never re-matches a scheme. -/
theorem pss_skip_slash (l : List Char) :
    parseSchemeSplit ('/' :: l) = (none, '/' :: l) := by
  unfold parseSchemeSplit
  rw [List.dropWhile_cons_of_neg (by decide)]
  dsimp only
  rw [if_neg (by simp)]

/-- Re-matching the authority at its reconstruction. -/
theorem pas_build (a path : List Char) (ha : ∀ c ∈ a, authOk c = true)
    (hpath : path = [] ∨ ∃ x xs, path = x :: xs ∧ authOk x = false) :
    parseAuthoritySplit ('/' :: '/' :: (a ++ path)) = (some a, path) := by
  unfold parseAuthoritySplit
  dsimp only
  rw [if_pos (by decide)]
  rcases hpath with rfl | ⟨x, xs, rfl, hx⟩
  · rw [List.append_nil, takeWhile_all authOk a ha, dropWhile_all authOk a ha]
  · have hstop := takeWhile_append_stop authOk a x xs ha hx
    rw [hstop.1, hstop.2]

/-- Scheme and authority re-match identically on the reconstructed
`scheme+authority+path` prefix of a query- and hash-free input. -/
theorem core_idem (s0 : List Char)
    (h0 : ∀ c ∈ s0, notQm c = true ∧ notHash c = true) :
    (∀ c ∈ coreRecon (parseSchemeSplit s0).1
        (parseAuthoritySplit (parseSchemeSplit s0).2).1
        (parseAuthoritySplit (parseSchemeSplit s0).2).2,
      notQm c = true ∧ notHash c = true) ∧
    parseSchemeSplit (coreRecon (parseSchemeSplit s0).1
        (parseAuthoritySplit (parseSchemeSplit s0).2).1
        (parseAuthoritySplit (parseSchemeSplit s0).2).2) =
      ((parseSchemeSplit s0).1,
        authRecon (parseAuthoritySplit (parseSchemeSplit s0).2).1 ++
          (parseAuthoritySplit (parseSchemeSplit s0).2).2) ∧
    parseAuthoritySplit (authRecon (parseAuthoritySplit (parseSchemeSplit s0).2).1 ++
        (parseAuthoritySplit (parseSchemeSplit s0).2).2) =
      ((parseAuthoritySplit (parseSchemeSplit s0).2).1,
        (parseAuthoritySplit (parseSchemeSplit s0).2).2) := by
  have hgood : ∀ c : Char, c = ':' ∨ c = '/' ∨ c ∈ s0 →
      notQm c = true ∧ notHash c = true := by
    intro c hc
    rcases hc with rfl | rfl | hc
    · exact ⟨by decide, by decide⟩
    · exact ⟨by decide, by decide⟩
    · exact h0 c hc
  rcases hss : parseSchemeSplit s0 with ⟨sch, rest1⟩
  rcases has : parseAuthoritySplit rest1 with ⟨auth, path⟩
  dsimp only
  cases sch with
  | some sc =>
    obtain ⟨hdec, hscOk, hscne⟩ := pss_some_inv s0 sc rest1 hss
    have hmem_sc : ∀ c ∈ sc, c ∈ s0 := by
      intro c hc
      rw [hdec]
      exact List.mem_append.mpr (Or.inl hc)
    have hmem_rest1 : ∀ c ∈ rest1, c ∈ s0 := by
      intro c hc
      rw [hdec]
      exact List.mem_append.mpr (Or.inr (List.mem_cons_of_mem _ hc))
    cases auth with
    | some a =>
      obtain ⟨hdec2, haOk, hpathOk⟩ := pas_some_inv rest1 a path has
      have hmem_a : ∀ c ∈ a, c ∈ s0 := by
        intro c hc
        refine hmem_rest1 c ?_
        rw [hdec2]
        exact List.mem_cons_of_mem _ (List.mem_cons_of_mem _
          (List.mem_append.mpr (Or.inl hc)))
      have hmem_path : ∀ c ∈ path, c ∈ s0 := by
        intro c hc
        refine hmem_rest1 c ?_
        rw [hdec2]
        exact List.mem_cons_of_mem _ (List.mem_cons_of_mem _
          (List.mem_append.mpr (Or.inr hc)))
      refine ⟨?_, ?_, ?_⟩
      · intro c hc
        refine hgood c ?_
        simp only [coreRecon, schemeRecon, authRecon, List.mem_append,
          List.mem_cons, List.mem_singleton, List.not_mem_nil, or_false] at hc
        rcases hc with ((hc | rfl) | (rfl | rfl | hc)) | hc
        · exact Or.inr (Or.inr (hmem_sc c hc))
        · exact Or.inl rfl
        · exact Or.inr (Or.inl rfl)
        · exact Or.inr (Or.inl rfl)
        · exact Or.inr (Or.inr (hmem_a c hc))
        · exact Or.inr (Or.inr (hmem_path c hc))
      · have hcrEq : coreRecon (some sc) (some a) path =
            sc ++ ':' :: (authRecon (some a) ++ path) := by
          simp [coreRecon, schemeRecon, authRecon, List.append_assoc]
        rw [hcrEq]
        exact pss_build sc _ hscOk hscne
      · exact pas_build a path haOk hpathOk
    | none =>
      obtain ⟨hpn, hnoslash⟩ := pas_none_inv rest1 path has
      subst hpn
      refine ⟨?_, ?_, ?_⟩
      · intro c hc
        refine hgood c ?_
        simp only [coreRecon, schemeRecon, authRecon, List.mem_append,
          List.mem_cons, List.mem_singleton, List.not_mem_nil, or_false] at hc
        rcases hc with (hc | rfl) | hc
        · exact Or.inr (Or.inr (hmem_sc c hc))
        · exact Or.inl rfl
        · exact Or.inr (Or.inr (hmem_rest1 c hc))
      · have hcrEq : coreRecon (some sc) none path =
            sc ++ ':' :: (authRecon none ++ path) := by
          simp [coreRecon, schemeRecon, authRecon, List.append_assoc]
        rw [hcrEq]
        exact pss_build sc _ hscOk hscne
      · simp only [authRecon, List.nil_append]
        exact has
  | none =>
    have hrest : rest1 = s0 := pss_none_inv s0 rest1 hss
    subst hrest
    cases auth with
    | some a =>
      obtain ⟨hdec2, haOk, hpathOk⟩ := pas_some_inv rest1 a path has
      have hmem_a : ∀ c ∈ a, c ∈ rest1 := by
        intro c hc
        rw [hdec2]
        exact List.mem_cons_of_mem _ (List.mem_cons_of_mem _
          (List.mem_append.mpr (Or.inl hc)))
      have hmem_path : ∀ c ∈ path, c ∈ rest1 := by
        intro c hc
        rw [hdec2]
        exact List.mem_cons_of_mem _ (List.mem_cons_of_mem _
          (List.mem_append.mpr (Or.inr hc)))
      refine ⟨?_, ?_, ?_⟩
      · intro c hc
        refine hgood c ?_
        simp only [coreRecon, schemeRecon, authRecon, List.mem_append,
          List.mem_cons, List.not_mem_nil, or_false, List.nil_append] at hc
        rcases hc with (rfl | rfl | hc) | hc
        · exact Or.inr (Or.inl rfl)
        · exact Or.inr (Or.inl rfl)
        · exact Or.inr (Or.inr (hmem_a c hc))
        · exact Or.inr (Or.inr (hmem_path c hc))
      · have hcrEq : coreRecon none (some a) path =
            '/' :: ('/' :: (a ++ path)) := by
          simp [coreRecon, schemeRecon, authRecon]
        rw [hcrEq]
        exact pss_skip_slash _
      · exact pas_build a path haOk hpathOk
    | none =>
      obtain ⟨hpn, hnoslash⟩ := pas_none_inv rest1 path has
      subst hpn
      refine ⟨?_, ?_, ?_⟩
      · intro c hc
        refine hgood c ?_
        simp only [coreRecon, schemeRecon, authRecon, List.nil_append] at hc
        exact Or.inr (Or.inr hc)
      · simp only [coreRecon, schemeRecon, authRecon, List.nil_append]
        exact hss
      · simp only [authRecon, List.nil_append]
        exact has

/-- `parseUri` in terms of its stages. -/
theorem parseUri_via (l : List Char) :
    parseUri l =
      { scheme := (parseSchemeSplit ((l.takeWhile notHash).takeWhile notQm)).1,
        authority := (parseAuthoritySplit
          (parseSchemeSplit ((l.takeWhile notHash).takeWhile notQm)).2).1,
        path := (parseAuthoritySplit
          (parseSchemeSplit ((l.takeWhile notHash).takeWhile notQm)).2).2,
        query := (splitOn1 notQm (l.takeWhile notHash)).2,
        fragment := (splitOn1 notHash l).2 } := by
  simp only [parseUri, splitOn1_fst]

/-- Idempotence at the `List Char` level: re-parsing the reconstructed
`scheme+authority+path+query` recovers all four components. -/
theorem parseUri_recon_idem (l : List Char) :
    (parseUri (reconUri (parseUri l))).scheme = (parseUri l).scheme ∧
    (parseUri (reconUri (parseUri l))).authority = (parseUri l).authority ∧
    (parseUri (reconUri (parseUri l))).path = (parseUri l).path ∧
    (parseUri (reconUri (parseUri l))).query = (parseUri l).query := by
  have hvl := parseUri_via l
  have hq1chars : ∀ c ∈ (l.takeWhile notHash).takeWhile notQm,
      notQm c = true ∧ notHash c = true := by
    intro c hc
    refine ⟨mem_takeWhile_pred notQm _ c hc, ?_⟩
    exact mem_takeWhile_pred notHash l c (mem_takeWhile_mem notQm _ c hc)
  obtain ⟨hcr, hpss2, hpas2⟩ := core_idem ((l.takeWhile notHash).takeWhile notQm) hq1chars
  have hrecon : reconUri (parseUri l) =
      coreRecon (parseSchemeSplit ((l.takeWhile notHash).takeWhile notQm)).1
        (parseAuthoritySplit
          (parseSchemeSplit ((l.takeWhile notHash).takeWhile notQm)).2).1
        (parseAuthoritySplit
          (parseSchemeSplit ((l.takeWhile notHash).takeWhile notQm)).2).2 ++
      queryRecon (splitOn1 notQm (l.takeWhile notHash)).2 := by
    rw [hvl]
    rfl
  have hqchars : ∀ qq, (splitOn1 notQm (l.takeWhile notHash)).2 = some qq →
      ∀ c ∈ qq, notHash c = true := by
    intro qq hqq c hc
    obtain ⟨x, hx, hpx⟩ := splitOn1_snd_some notQm _ qq hqq
    have hcpf : c ∈ l.takeWhile notHash :=
      mem_dropWhile_mem notQm _ c (by rw [hx]; exact List.mem_cons_of_mem x hc)
    exact mem_takeWhile_pred notHash l c hcpf
  have hall_hash : ∀ c ∈ reconUri (parseUri l), notHash c = true := by
    rw [hrecon]
    intro c hc
    rcases List.mem_append.mp hc with hc | hc
    · exact (hcr c hc).2
    · rcases hqv : (splitOn1 notQm (l.takeWhile notHash)).2 with _ | qq
      · rw [hqv] at hc; cases hc
      · rw [hqv] at hc
        rcases List.mem_cons.mp hc with rfl | hc
        · decide
        · exact hqchars qq hqv c hc
  have hstepA : splitOn1 notHash (reconUri (parseUri l)) =
      (reconUri (parseUri l), none) :=
    splitOn1_all notHash _ hall_hash
  have hstepB : splitOn1 notQm (reconUri (parseUri l)) =
      (coreRecon (parseSchemeSplit ((l.takeWhile notHash).takeWhile notQm)).1
        (parseAuthoritySplit
          (parseSchemeSplit ((l.takeWhile notHash).takeWhile notQm)).2).1
        (parseAuthoritySplit
          (parseSchemeSplit ((l.takeWhile notHash).takeWhile notQm)).2).2,
       (splitOn1 notQm (l.takeWhile notHash)).2) := by
    rw [hrecon]
    rcases hqv : (splitOn1 notQm (l.takeWhile notHash)).2 with _ | qq
    · simp only [queryRecon, List.append_nil]
      exact splitOn1_all notQm _ (fun c hc => (hcr c hc).1)
    · simp only [queryRecon]
      exact splitOn1_append notQm _ '?' qq (fun c hc => (hcr c hc).1) (by decide)
  have htw1 : (reconUri (parseUri l)).takeWhile notHash = reconUri (parseUri l) := by
    have h2 := congrArg Prod.fst hstepA
    rwa [splitOn1_fst] at h2
  have htw2 : ((reconUri (parseUri l)).takeWhile notHash).takeWhile notQm =
      coreRecon (parseSchemeSplit ((l.takeWhile notHash).takeWhile notQm)).1
        (parseAuthoritySplit
          (parseSchemeSplit ((l.takeWhile notHash).takeWhile notQm)).2).1
        (parseAuthoritySplit
          (parseSchemeSplit ((l.takeWhile notHash).takeWhile notQm)).2).2 := by
    rw [htw1]
    have h2 := congrArg Prod.fst hstepB
    rwa [splitOn1_fst] at h2
  have hq2 : (splitOn1 notQm ((reconUri (parseUri l)).takeWhile notHash)).2 =
      (splitOn1 notQm (l.takeWhile notHash)).2 := by
    rw [htw1, hstepB]
  have hvr := parseUri_via (reconUri (parseUri l))
  rw [hvr, htw2, hq2, hpss2, hvl]
  simp only [hpas2]
  exact ⟨trivial, trivial, trivial, trivial⟩

/-- **C9** (confirmed): the regex matches every reference string (captures are
always `Some`), and re-parsing the reconstructed `scheme+authority+path+query`
string yields the same scheme, authority, path and query components. -/
theorem c9_parse_total_and_idempotent (s : String) :
    reCaptures s ≠ none ∧
    (parseUri (reconUri (parseUri s.data))).scheme = (parseUri s.data).scheme ∧
    (parseUri (reconUri (parseUri s.data))).authority = (parseUri s.data).authority ∧
    (parseUri (reconUri (parseUri s.data))).path = (parseUri s.data).path ∧
    (parseUri (reconUri (parseUri s.data))).query = (parseUri s.data).query := by
  refine ⟨by simp [reCaptures], ?_⟩
  exact parseUri_recon_idem s.data

/-- Witness for `c9_parse_total_and_idempotent` at a reference exercising all
four components plus a fragment. -/
theorem c9_parse_total_and_idempotent_witness :
    reCaptures "git+ssh://git@github.com/o/r?x=1#host" ≠ none ∧
    (parseUri (reconUri (parseUri ("git+ssh://git@github.com/o/r?x=1#host" : String).data))).scheme =
      (parseUri ("git+ssh://git@github.com/o/r?x=1#host" : String).data).scheme ∧
    (parseUri (reconUri (parseUri ("git+ssh://git@github.com/o/r?x=1#host" : String).data))).authority =
      (parseUri ("git+ssh://git@github.com/o/r?x=1#host" : String).data).authority ∧
    (parseUri (reconUri (parseUri ("git+ssh://git@github.com/o/r?x=1#host" : String).data))).path =
      (parseUri ("git+ssh://git@github.com/o/r?x=1#host" : String).data).path ∧
    (parseUri (reconUri (parseUri ("git+ssh://git@github.com/o/r?x=1#host" : String).data))).query =
      (parseUri ("git+ssh://git@github.com/o/r?x=1#host" : String).data).query :=
  c9_parse_total_and_idempotent "git+ssh://git@github.com/o/r?x=1#host"

end DarwinRebuild
